import Mathlib

/-!
Verification development for the token-resolution and value-matching engine of
the design-token audit tool (token-utils / confidence-calculator / token-matcher).

The TypeScript sources are embedded shallowly:
* JavaScript numbers are modelled as exact values of the form `a + b·√r` with
  `a`, `b`, `r` unnormalized integer fractions (`Frac`, `JsNum` below).  The
  only irrational operation in the sources is `Math.sqrt` inside the colour
  distance; every comparison the code performs on such values is decided
  exactly by sign analysis (squaring), so the embedding is fully computable.
* JavaScript strings are modelled as Lean `String`s, with the handful of
  library functions the code uses (`toLowerCase`, `split`, `includes`,
  `endsWith`, regex tests, `parseFloat`, `parseInt`) re-implemented over
  `String.data` so that concrete runs reduce inside the kernel.
* The token-tree recursion of the resolver is embedded with explicit fuel;
  the fuel argument only mirrors the termination that the source obtains from
  its visited-path sets, and theorems show the results are fuel-independent.
-/

/-- An unnormalized fraction `num / den`.  All fractions built by the
embedding have a positive denominator (`Frac.Pos`); operations do not
normalize, and value-level comparisons cross-multiply. -/
structure Frac where
  num : Int
  den : Int
  deriving DecidableEq, Repr

namespace Frac

/-- Embed an integer. -/
def ofInt (n : Int) : Frac := ⟨n, 1⟩

/-- Build `n / d`, normalizing the sign into the numerator. -/
def make (n d : Int) : Frac := if d < 0 then ⟨-n, -d⟩ else ⟨n, d⟩

def add (x y : Frac) : Frac := ⟨x.num * y.den + y.num * x.den, x.den * y.den⟩

def sub (x y : Frac) : Frac := ⟨x.num * y.den - y.num * x.den, x.den * y.den⟩

def mul (x y : Frac) : Frac := ⟨x.num * y.num, x.den * y.den⟩

def div (x y : Frac) : Frac := make (x.num * y.den) (x.den * y.num)

def neg (x : Frac) : Frac := ⟨-x.num, x.den⟩

/-- `Math.abs`, assuming a positive denominator. -/
def abs (x : Frac) : Frac := ⟨(x.num.natAbs : Int), x.den⟩

/-- Sign of the value, assuming a positive denominator. -/
def sgn (x : Frac) : Int := if 0 < x.num then 1 else if x.num = 0 then 0 else -1

/-- Value-level `<`, valid when both denominators are positive. -/
def blt (x y : Frac) : Bool := x.num * y.den < y.num * x.den

/-- Value-level `≤`, valid when both denominators are positive. -/
def ble (x y : Frac) : Bool := x.num * y.den ≤ y.num * x.den

/-- Value-level equality, valid when both denominators are positive. -/
def beq (x y : Frac) : Bool := x.num * y.den = y.num * x.den

/-- Value-level zero test, valid when the denominator is positive. -/
def isZero (x : Frac) : Bool := x.num = 0

/-- The rational value of a fraction. -/
def val (x : Frac) : ℚ := (x.num : ℚ) / (x.den : ℚ)

/-- Well-formedness: the denominator is positive. -/
def Pos (x : Frac) : Prop := 0 < x.den

instance (x : Frac) : Decidable x.Pos := by unfold Pos; infer_instance

end Frac

/-- A JavaScript number arising in this code base: the exact real
`a + b·√r` (with `r ≥ 0`; pure rationals have `b = 0`). -/
structure JsNum where
  a : Frac
  b : Frac
  r : Frac
  deriving DecidableEq, Repr

namespace JsNum

def ofFrac (f : Frac) : JsNum := ⟨f, Frac.ofInt 0, Frac.ofInt 0⟩

def ofInt (n : Int) : JsNum := ofFrac (Frac.ofInt n)

/-- Sign of `a + b·√r` (with `√r` read as `0` when `r ≤ 0`), decided by
exact case analysis and squaring.  Valid when all denominators are positive. -/
def sgnAux (a b r : Frac) : Int :=
  if b.isZero || r.sgn ≤ 0 then a.sgn
  else if 0 < b.sgn then
    if 0 ≤ a.sgn then 1
    else if (a.mul a).blt ((b.mul b).mul r) then 1
    else if (a.mul a).beq ((b.mul b).mul r) then 0
    else -1
  else
    if a.sgn ≤ 0 then -1
    else if ((b.mul b).mul r).blt (a.mul a) then 1
    else if (a.mul a).beq ((b.mul b).mul r) then 0
    else -1

/-- Sign of `a + b·√r + c·√s`, by reduction to `sgnAux` with at most two
squarings.  Valid when all denominators are positive. -/
def sgn2Aux (a b r c s : Frac) : Int :=
  if b.isZero || r.sgn ≤ 0 then sgnAux a c s
  else if c.isZero || s.sgn ≤ 0 then sgnAux a b r
  else if 0 < b.sgn ∧ 0 < c.sgn then
    if 0 ≤ a.sgn then 1
    else sgnAux ((((b.mul b).mul r).add ((c.mul c).mul s)).sub (a.mul a))
      ((Frac.ofInt 2).mul (b.mul c)) (r.mul s)
  else if b.sgn < 0 ∧ c.sgn < 0 then
    - (if a.sgn ≤ 0 then 1
       else sgnAux ((((b.mul b).mul r).add ((c.mul c).mul s)).sub (a.mul a))
         ((Frac.ofInt 2).mul (b.mul c)) (r.mul s))
  else if 0 < b.sgn then
    if sgnAux a b r ≤ 0 then -1
    else sgnAux (((a.mul a).add ((b.mul b).mul r)).sub ((c.mul c).mul s))
      (((Frac.ofInt 2).mul a).mul b) r
  else
    if sgnAux a c s ≤ 0 then -1
    else sgnAux (((a.mul a).add ((c.mul c).mul s)).sub ((b.mul b).mul r))
      (((Frac.ofInt 2).mul a).mul c) s

/-- `q ≤ x` for a rational threshold `q`. -/
def geF (x : JsNum) (q : Frac) : Bool := 0 ≤ sgnAux (x.a.sub q) x.b x.r

/-- `x ≤ q` for a rational threshold `q`. -/
def leF (x : JsNum) (q : Frac) : Bool := sgnAux (x.a.sub q) x.b x.r ≤ 0

/-- `q < x` for a rational threshold `q`. -/
def gtF (x : JsNum) (q : Frac) : Bool := 0 < sgnAux (x.a.sub q) x.b x.r

/-- `x < q` for a rational threshold `q`. -/
def ltF (x : JsNum) (q : Frac) : Bool := sgnAux (x.a.sub q) x.b x.r < 0

/-- `x = q` (value-level) for a rational `q`. -/
def eqF (x : JsNum) (q : Frac) : Bool := sgnAux (x.a.sub q) x.b x.r = 0

def addQ (x : JsNum) (q : Frac) : JsNum := ⟨x.a.add q, x.b, x.r⟩

def mulQ (x : JsNum) (q : Frac) : JsNum := ⟨x.a.mul q, x.b.mul q, x.r⟩

/-- `q - x`. -/
def subFrom (q : Frac) (x : JsNum) : JsNum := ⟨q.sub x.a, x.b.neg, x.r⟩

/-- `Math.max(q, x)` for a rational first argument. -/
def maxQ (q : Frac) (x : JsNum) : JsNum := if x.geF q then x else ofFrac q

/-- `Math.min(q, x)` for a rational first argument. -/
def minQ (q : Frac) (x : JsNum) : JsNum := if x.leF q then x else ofFrac q

/-- Sign of `x - y`. -/
def cmpSign (x y : JsNum) : Int := sgn2Aux (x.a.sub y.a) x.b x.r y.b.neg y.r

/-- `|x - y| > t` for a rational tolerance `t`. -/
def absGt (x y : JsNum) (t : Frac) : Bool :=
  sgn2Aux ((x.a.sub y.a).sub t) x.b x.r y.b.neg y.r = 1 ||
  sgn2Aux ((y.a.sub x.a).sub t) y.b y.r x.b.neg x.r = 1

/-- Well-formedness: the three component fractions have positive denominators. -/
def WF (x : JsNum) : Prop := x.a.Pos ∧ x.b.Pos ∧ x.r.Pos

end JsNum

/-! ### JavaScript string primitives, re-implemented over character lists -/

/-- ASCII lower-casing of one character (models `toLowerCase` on the ASCII
names and keywords this code works with). -/
def asciiLower (c : Char) : Char :=
  if 'A' ≤ c ∧ c ≤ 'Z' then Char.ofNat (c.toNat + 32) else c

def strToLower (s : String) : String := String.mk (s.data.map asciiLower)

def listStartsWith : List Char → List Char → Bool
  | _, [] => true
  | [], _ :: _ => false
  | c :: cs, p :: ps => c = p && listStartsWith cs ps

/-- `l` contains `pat` as a contiguous run (JS `String.prototype.includes`). -/
def listContainsSub (pat : List Char) : List Char → Bool
  | [] => listStartsWith [] pat
  | c :: rest => listStartsWith (c :: rest) pat || listContainsSub pat rest

def strContains (s pat : String) : Bool := listContainsSub pat.data s.data

def strStartsWith (s pre : String) : Bool := listStartsWith s.data pre.data

def strEndsWith (s suf : String) : Bool :=
  listStartsWith s.data.reverse suf.data.reverse

def strLen (s : String) : Nat := s.data.length

/-- Split on one character (the sources only split on `"."`). -/
def splitChar (sep : Char) : List Char → List (List Char)
  | [] => [[]]
  | c :: rest =>
    let r := splitChar sep rest
    if c = sep then [] :: r
    else
      match r with
      | [] => [[c]]
      | g :: gs => (c :: g) :: gs

def strSplitDot (s : String) : List String := (splitChar '.' s.data).map String.mk

def strJoinDot (l : List String) : String :=
  String.mk (List.intercalate ['.'] (l.map String.data))

/-- Lexicographic character-code comparison; models the default-locale
`localeCompare` tie-break on the ASCII token names involved. -/
def charListCmp : List Char → List Char → Int
  | [], [] => 0
  | [], _ :: _ => -1
  | _ :: _, [] => 1
  | c :: cs, d :: ds =>
    if c.toNat < d.toNat then -1
    else if d.toNat < c.toNat then 1
    else charListCmp cs ds

def strCmp (s t : String) : Int := charListCmp s.data t.data

/-- `/^\d+$/` — nonempty and all decimal digits. -/
def allDigitsStr (s : String) : Bool := !s.data.isEmpty && s.data.all Char.isDigit

/-- `/\.\d+$/` — ends in a dot followed by at least one digit. -/
def endsDotDigits (s : String) : Bool :=
  let rev := s.data.reverse
  let ds := rev.takeWhile Char.isDigit
  !ds.isEmpty &&
    match rev.drop ds.length with
    | '.' :: _ => true
    | _ => false

def strEndsWithAny (s : String) (sufs : List String) : Bool :=
  sufs.any (fun suf => strEndsWith s suf)

/-! ### JavaScript number parsing and formatting -/

def digitsToNat (ds : List Char) : Nat := ds.foldl (fun n c => n * 10 + (c.toNat - 48)) 0

def isHexDigit (c : Char) : Bool :=
  c.isDigit || ('a' ≤ c ∧ c ≤ 'f') || ('A' ≤ c ∧ c ≤ 'F')

def hexDigitVal (c : Char) : Nat :=
  if c.isDigit then c.toNat - 48
  else if 'a' ≤ c ∧ c ≤ 'f' then c.toNat - 87
  else c.toNat - 55

def hexDigitsToNat (ds : List Char) : Nat := ds.foldl (fun n c => n * 16 + hexDigitVal c) 0

/-- `Number.parseInt(s, 16)`: leading hexadecimal digits, `NaN` (= `none`)
when there is none.  (The sources only feed it 2-character hex slices, so
sign/whitespace/`0x` handling is not needed.) -/
def jsParseIntHex (cs : List Char) : Option Nat :=
  let ds := cs.takeWhile isHexDigit
  if ds.isEmpty then none else some (hexDigitsToNat ds)

/-- `Number.parseInt(run, 10)` on a nonempty run of decimal digits. -/
def jsParseIntDec (ds : List Char) : Nat := digitsToNat ds

def isJsSpace (c : Char) : Bool := c = ' ' || c = '\t' || c = '\n' || c = '\r'

/-- `Number.parseFloat`: longest valid decimal-literal prefix after optional
whitespace and sign; `none` models `NaN`. -/
def jsParseFloat (s : String) : Option Frac :=
  let cs := s.data.dropWhile isJsSpace
  let (sign, cs) : Int × List Char :=
    match cs with
    | '-' :: rest => (-1, rest)
    | '+' :: rest => (1, rest)
    | _ => (1, cs)
  let intDs := cs.takeWhile Char.isDigit
  let cs := cs.drop intDs.length
  let (fracDs, cs) : List Char × List Char :=
    match cs with
    | '.' :: rest => (rest.takeWhile Char.isDigit, rest.drop (rest.takeWhile Char.isDigit).length)
    | _ => ([], cs)
  if intDs.isEmpty ∧ fracDs.isEmpty then none
  else
    let mant : Int := sign * (digitsToNat intDs * 10 ^ fracDs.length + digitsToNat fracDs)
    let expPart : Int :=
      match cs with
      | e :: rest =>
        if e = 'e' ∨ e = 'E' then
          let (esign, rest) : Int × List Char :=
            match rest with
            | '-' :: r => (-1, r)
            | '+' :: r => (1, r)
            | _ => (1, rest)
          let eds := rest.takeWhile Char.isDigit
          if eds.isEmpty then 0 else esign * digitsToNat eds
        else 0
      | [] => 0
    let scale : Int := expPart - fracDs.length
    if 0 ≤ scale then some ⟨mant * 10 ^ scale.toNat, 1⟩
    else some ⟨mant, (10 : Int) ^ (-scale).toNat⟩

def natDigitChars (fuel n : Nat) : List Char :=
  match fuel with
  | 0 => []
  | f + 1 =>
    if n < 10 then [Char.ofNat (48 + n)]
    else natDigitChars f (n / 10) ++ [Char.ofNat (48 + n % 10)]

def natToStr (n : Nat) : String := String.mk (natDigitChars (n + 1) n)

def intToStr (i : Int) : String :=
  if i < 0 then String.mk ('-' :: (natToStr i.natAbs).data) else natToStr i.toNat

/-- Exponent search: least `k ≤ 20` with `num · 10^k` divisible by `den`. -/
def decExpSearch (num den : Int) : Option Nat :=
  (List.range 21).find? (fun k => num * 10 ^ k % den = 0)

/-- JS number-to-string for the (finite-decimal) numeric leaf values this
tool encounters: minimal decimal representation, e.g. `8 ↦ "8"`,
`1/2 ↦ "0.5"`. -/
def fracToString (x : Frac) : String :=
  if x.num = 0 then "0"
  else
    let sign : String := if x.num * x.den < 0 then "-" else ""
    let n : Int := (x.num.natAbs : Int)
    let d : Int := (x.den.natAbs : Int)
    match decExpSearch n d with
    | none => "?"
    | some 0 => String.mk (sign.data ++ (natToStr (n / d).toNat).data)
    | some (k + 1) =>
      let scaled := (n * 10 ^ (k + 1) / d).toNat
      let ip := scaled / 10 ^ (k + 1)
      let fp := scaled % 10 ^ (k + 1)
      let fpDigits := natDigitChars (fp + 1) fp
      let pad := List.replicate (k + 1 - fpDigits.length) '0'
      String.mk (sign.data ++ (natToStr ip).data ++ '.' :: (pad ++ fpDigits))

/-- `Math.round(x)` for the percentage values `confidence × 100 ∈ [0, 100]`
shown in suggestion strings (round half up, exact sign tests). -/
def jsRoundPct (x : JsNum) : Nat :=
  ((List.range 101).find? (fun k => x.ltF ⟨2 * (Int.ofNat k) + 1, 2⟩)).getD 100

/-! ### Raw token trees (`src/lib/types.ts`: `DesignToken` / `TokenValue`)

A raw token file is an arbitrary JSON object.  Arrays are encoded as `arr`
nodes whose fields carry the stringified indices `"0"`, `"1"`, … as keys,
which is exactly how `Object.entries` presents them to this code. -/

mutual
inductive RNode where
  | str : String → RNode
  | num : Frac → RNode
  | obj : RFields → RNode
  | arr : RFields → RNode
  deriving DecidableEq, Repr
inductive RFields where
  | nil : RFields
  | cons : String → RNode → RFields → RFields
  deriving DecidableEq, Repr
end

namespace RFields

def lookup (k : String) : RFields → Option RNode
  | .nil => none
  | .cons k' v rest => if k' = k then some v else lookup k rest

def keys : RFields → List String
  | .nil => []
  | .cons k _ rest => k :: keys rest

def toList : RFields → List (String × RNode)
  | .nil => []
  | .cons k v rest => (k, v) :: toList rest

end RFields

namespace RNode

/-- JavaScript truthiness of a JSON value. -/
def truthy : RNode → Bool
  | .str s => s ≠ ""
  | .num q => ¬ q.isZero
  | .obj _ => true
  | .arr _ => true

/-- Property access (`x.k`); non-objects have none of the properties this
code reads. -/
def propGet (k : String) : RNode → Option RNode
  | .obj f => f.lookup k
  | _ => none

/-- `typeof v === "object"` (arrays included; there is no `null` in the model). -/
def isObjLike : RNode → Bool
  | .obj _ => true
  | .arr _ => true
  | _ => false

/-- `Object.entries(v)` as this code consumes it. -/
def entriesOf : RNode → List (String × RNode)
  | .obj f => f.toList
  | .arr f => f.toList
  | _ => []

/-- `tokenData.value.$value ?? tokenData.value.value`. -/
def rawValOf (v : RNode) : Option RNode := (v.propGet "$value").orElse (fun _ => v.propGet "value")

/-- `tokenData.value.$type ?? tokenData.value.type`. -/
def typeValOf (v : RNode) : Option RNode := (v.propGet "$type").orElse (fun _ => v.propGet "type")

/-- JS `String(v)` on the values this code stringifies. -/
def jsToString : RNode → String
  | .str s => s
  | .num q => fracToString q
  | .obj _ => "[object Object]"
  | .arr f => String.mk (List.intercalate [','] ((jsToStringFields f).map String.data))
where
  jsToStringFields : RFields → List String
    | .nil => []
    | .cons _ (.str s) rest => s :: jsToStringFields rest
    | .cons _ (.num q) rest => fracToString q :: jsToStringFields rest
    | .cons _ (.obj _) rest => "[object Object]" :: jsToStringFields rest
    | .cons _ (.arr g) rest =>
      String.mk (List.intercalate [','] ((jsToStringFields g).map String.data)) :: jsToStringFields rest

/-- `String(x)` for a possibly-`undefined` value (`String(undefined) = "undefined"`). -/
def jsToStringOpt : Option RNode → String
  | some v => v.jsToString
  | none => "undefined"

end RNode

/-! ### `src/lib/types.ts`: `Theme`, `ResolvedToken` -/

/-- A theme: `{ id, name, selectedTokenSets }`.  Statuses are raw JSON
values; the code compares them to the strings `"enabled"` / `"source"`. -/
structure Theme where
  id : RNode
  name : RNode
  selectedTokenSets : List (String × RNode)
  deriving DecidableEq, Repr

structure ResolvedToken where
  value : String
  isReference : Bool
  originalReference : Option String := none
  referenceChain : Option (List String) := none
  tokenType : Option String := none
  deriving DecidableEq, Repr

/-! ### `src/lib/token-utils.ts` -/

/-- `extractCleanTokenName`: strip a set-name prefix segment when the first
dotted segment contains a space or slash or starts with a digit. -/
def extractCleanTokenName (tokenPath : String) : String :=
  let parts := strSplitDot tokenPath
  if 1 < parts.length then
    match parts with
    | [] => tokenPath
    | firstPart :: rest =>
      if strContains firstPart " " || strContains firstPart "/" ||
          (firstPart.data.headD 'x').isDigit then
        strJoinDot rest
      else tokenPath
  else tokenPath

/-- `extractThemes`: read the `$themes` metadata array, keeping entries whose
`id`, `name` and `selectedTokenSets` are all present and truthy. -/
def extractThemes (tokens : RFields) : List Theme :=
  match tokens.lookup "$themes" with
  | some (.arr es) =>
    (es.toList.map Prod.snd).foldl
      (fun acc t =>
        match t.propGet "id", t.propGet "name", t.propGet "selectedTokenSets" with
        | some i, some n, some sel =>
          if i.truthy && n.truthy && sel.truthy then
            acc ++ [⟨i, n, sel.entriesOf⟩]
          else acc
        | _, _, _ => acc)
      []
  | _ => []

/-- `getAvailableTokenSets`: the sets a theme marks `enabled`/`source` (and
which exist in the file), followed by every other non-`$` top-level key. -/
def getAvailableTokenSets (tokens : RFields) (theme : Theme) : List String :=
  let fromTheme := theme.selectedTokenSets.foldl
    (fun acc p =>
      if (p.2 = RNode.str "enabled" ∨ p.2 = RNode.str "source") &&
          ((tokens.lookup p.1).map RNode.truthy).getD false then
        acc ++ [p.1]
      else acc)
    []
  let allSets := tokens.keys.filter (fun k => !strStartsWith k "$")
  allSets.foldl (fun acc s => if acc.contains s then acc else acc ++ [s]) fromTheme

/-- Entry of the flattened token table (`allTokens` in `token-utils.ts`):
the raw leaf node together with its set context. -/
structure TokData where
  node : RNode
  setName : String
  fullPath : String
  deriving DecidableEq, Repr

/-- First-match association lookup (JS object property read). -/
def assocGet {α : Type} : List (String × α) → String → Option α
  | [], _ => none
  | (k', v) :: rest, k => if k' = k then some v else assocGet rest k

/-- JS object property write: overwrite in place, else append (JS objects
keep the original insertion position on re-assignment). -/
def assocInsert {α : Type} : List (String × α) → String → α → List (String × α)
  | [], k, v => [(k, v)]
  | (k', v') :: rest, k, v =>
    if k' = k then (k', v) :: rest else (k', v') :: assocInsert rest k v

def RNode.fieldsOf : RNode → RFields
  | .obj g => g
  | .arr g => g
  | _ => .nil

/-- `collectAllTokensWithContext`: walk a set, storing every node exposing a
`$value`/`value` field under its set-prefixed dotted path, recursing into all
other object (or array) children. -/
def collectAllTokensWithContext (f : RFields) (acc : List (String × TokData))
    (pre setName : String) : List (String × TokData) :=
  match f with
  | .nil => acc
  | .cons key v rest =>
    let fullPath := if pre = "" then key else pre ++ "." ++ key
    let acc' :=
      match v with
      | .str _ => acc
      | .num _ => acc
      | .obj g =>
        match (g.lookup "$value").orElse (fun _ => g.lookup "value") with
        | some _ =>
          let tokenKey := if setName = "" then fullPath else setName ++ "." ++ fullPath
          assocInsert acc tokenKey ⟨.obj g, setName, fullPath⟩
        | none => collectAllTokensWithContext g acc fullPath setName
      | .arr g => collectAllTokensWithContext g acc fullPath setName
    collectAllTokensWithContext rest acc' pre setName

/-! Placeholder scanning: the regex `\{([^}]+)\}` with the `g` flag. -/

def curlyOpen : Char := Char.ofNat 123

def curlyClose : Char := Char.ofNat 125

/-- All matches of the reference-placeholder regex, as
`(full match, captured path)` pairs.  Fueled by the input length. -/
def scanPH : Nat → List Char → List (String × String)
  | 0, _ => []
  | _, [] => []
  | fuel + 1, c :: rest =>
    if c = curlyOpen then
      let content := rest.takeWhile (fun d => d ≠ curlyClose)
      match rest.drop content.length with
      | d :: rem =>
        if d = curlyClose ∧ ¬content.isEmpty then
          (String.mk (curlyOpen :: (content ++ [curlyClose])), String.mk content) :: scanPH fuel rem
        else scanPH fuel rest
      | [] => scanPH fuel rest
    else scanPH fuel rest

def scanPlaceholders (s : String) : List (String × String) := scanPH (s.data.length + 1) s.data

/-- `String.prototype.replace` with a plain (nonempty) search string:
replace the first occurrence only. -/
def replaceFirstL (pat rep : List Char) : List Char → List Char
  | [] => []
  | c :: rest =>
    if listStartsWith (c :: rest) pat then rep ++ (c :: rest).drop pat.length
    else c :: replaceFirstL pat rep rest

def strReplaceFirst (s pat rep : String) : String :=
  String.mk (replaceFirstL pat.data rep.data s.data)

/-- `[...new Set(xs)]`: deduplicate keeping first occurrences. -/
def dedupPreserve (l : List String) : List String :=
  l.foldl (fun acc s => if acc.contains s then acc else acc ++ [s]) []

/-- Generic stable sort (models `Array.prototype.sort`, which is stable):
insert each element after all existing entries it does not strictly precede. -/
def stableInsert {α : Type} (lt : α → α → Bool) (x : α) : List α → List α
  | [] => [x]
  | y :: ys => if lt x y then x :: y :: ys else y :: stableInsert lt x ys

def stableSortBy {α : Type} (lt : α → α → Bool) (l : List α) : List α :=
  l.foldl (fun acc x => stableInsert lt x acc) []

/-- The comparator `findAndResolveReference` sorts candidate paths with:
exact reference first, then `Base`/`"00 "` sets, then alphabetical. -/
def refPathCmp (referencePath a b : String) : Int :=
  if a = referencePath then -1
  else if b = referencePath then 1
  else
    let aIsBase := strContains a "Base" || strContains a "00 "
    let bIsBase := strContains b "Base" || strContains b "00 "
    if aIsBase && !bIsBase then -1
    else if !aIsBase && bIsBase then 1
    else strCmp a b

/-- The mutually recursive resolver calls of `token-utils.ts`, reified so the
recursion is structural in one fuel argument:
`direct` is `resolveTokenReferenceWithContext`, `find` is
`findAndResolveReference`, `tryPaths` its loop over candidate paths. -/
inductive RCall where
  | direct (tokenPath : String) (visited : List String) (chain : List String)
  | find (referencePath : String) (visited : List String) (chain : List String)
  | tryPaths (paths : List String) (visited : List String) (chain : List String)

/-- One resolver computation.  The fuel only bounds recursion depth; the
source terminates through its visited-path sets, and the theorems below show
results do not depend on the fuel once it is large enough. -/
def resolveStep (allTokens : List (String × TokData)) :
    Nat → RCall → List (String × ResolvedToken) →
    Option ResolvedToken × List (String × ResolvedToken)
  | 0, _, cache => (none, cache)
  | fuel + 1, .direct tokenPath visited chain, cache =>
    if visited.contains tokenPath then (none, cache)
    else
      match assocGet cache tokenPath with
      | some r => (some r, cache)
      | none =>
        match assocGet allTokens tokenPath with
        | none => (none, cache)
        | some tokenData =>
          match tokenData.node.rawValOf with
          | none => (none, cache)
          | some rawValue =>
            let tokenTypeStr := RNode.jsToStringOpt tokenData.node.typeValOf
            let visited' := visited ++ [tokenPath]
            let stringValue := rawValue.jsToString
            let references := scanPlaceholders stringValue
            if references.isEmpty then
              let result : ResolvedToken := ⟨stringValue, false, none, none, some tokenTypeStr⟩
              (some result, assocInsert cache tokenPath result)
            else
              let st := references.foldl
                (fun (st : String × List String × List (String × ResolvedToken)) ref =>
                  let ch1 := st.2.1 ++ [ref.2]
                  match resolveStep allTokens fuel (.find ref.2 visited' ch1) st.2.2 with
                  | (some referencedToken, c') =>
                    (strReplaceFirst st.1 ref.1 referencedToken.value,
                     ch1 ++ referencedToken.referenceChain.getD [], c')
                  | (none, c') => (strReplaceFirst st.1 ref.1 ref.1, ch1, c'))
                (stringValue, chain, cache)
              let result : ResolvedToken :=
                ⟨st.1, true, some stringValue, some (dedupPreserve st.2.1), some tokenTypeStr⟩
              (some result, assocInsert st.2.2 tokenPath result)
  | fuel + 1, .find referencePath visited chain, cache =>
    if (assocGet allTokens referencePath).isSome then
      resolveStep allTokens fuel (.direct referencePath visited chain) cache
    else
      let possiblePaths := (allTokens.map Prod.fst).filter
        (fun p => strEndsWith p ("." ++ referencePath) || p = referencePath)
      let sorted := stableSortBy (fun a b => refPathCmp referencePath a b < 0) possiblePaths
      resolveStep allTokens fuel (.tryPaths sorted visited chain) cache
  | _ + 1, .tryPaths [] _ _, cache => (none, cache)
  | fuel + 1, .tryPaths (p :: ps) visited chain, cache =>
    match resolveStep allTokens fuel (.direct p visited chain) cache with
    | (some r, c') => (some r, c')
    | (none, c') => resolveStep allTokens fuel (.tryPaths ps visited chain) c'

/-- The top-level resolution loop shared by `resolveTokensWithSemantics` and
`resolveTokensWithTheme`. -/
def resolveAllTokens (allTokens : List (String × TokData)) (fuel : Nat) :
    List (String × ResolvedToken) :=
  (allTokens.map Prod.fst).foldl
    (fun resolvedTokens tokenPath =>
      (resolveStep allTokens fuel (.direct tokenPath [] []) resolvedTokens).2)
    []

/-- Canonical fuel: comfortably larger than any chain the visited sets allow. -/
def resolverFuel (n : Nat) : Nat := 3 * (n + 2) * (n + 2)

/-- The set-selection plus collection steps shared by both resolver entries. -/
def collectAllFromSets (tokens : RFields) (availableTokenSets : List String) :
    List (String × TokData) :=
  availableTokenSets.foldl
    (fun acc setName =>
      match tokens.lookup setName with
      | some v =>
        if v.isObjLike && (v.propGet "$value").isNone then
          collectAllTokensWithContext v.fieldsOf acc "" setName
        else acc
      | none => acc)
    []

/-- The non-metadata top-level keys (the sets used when no theme applies). -/
def nonMetaSets (tokens : RFields) : List String :=
  tokens.keys.filter (fun k => !strStartsWith k "$")

/-- The set selection of `resolveTokensWithSemantics`: the first `$themes`
entry when one exists, else all non-metadata sets. -/
def defaultAvailableSets (tokens : RFields) : List String :=
  match (extractThemes tokens).head? with
  | some t => getAvailableTokenSets tokens t
  | none => nonMetaSets tokens

/-- `resolveTokensWithSemantics` (the no-theme entry; it still adopts the
first `$themes` entry as default theme when one exists). -/
def resolveTokensWithSemantics (tokens : RFields) : List (String × ResolvedToken) :=
  let allTokens := collectAllFromSets tokens (defaultAvailableSets tokens)
  resolveAllTokens allTokens (resolverFuel allTokens.length)

/-- `resolveTokensWithTheme`. -/
def resolveTokensWithTheme (tokens : RFields) (theme : Theme) : List (String × ResolvedToken) :=
  let availableTokenSets := getAvailableTokenSets tokens theme
  let allTokens := collectAllFromSets tokens availableTokenSets
  resolveAllTokens allTokens (resolverFuel allTokens.length)

/-! ### `src/lib/confidence-calculator.ts` -/

/-- One Levenshtein DP step along the target row. -/
def levAux (c : Char) : List Char → List Nat → Nat → List Nat
  | [], _, _ => []
  | d :: ds, p0 :: p1 :: ps, cur =>
    let v := min (min (p1 + 1) (cur + 1)) (p0 + (if c = d then 0 else 1))
    v :: levAux c ds (p1 :: ps) v
  | _ :: _, _, _ => []

def editDistance (s t : List Char) : Nat :=
  let init := List.range (t.length + 1)
  (s.foldl
    (fun prev c =>
      let h := prev.headD 0 + 1
      h :: levAux c t prev h)
    init).getLastD 0

/-- Modelled from the spec: `calculateStringSimilarity` is imported from
`src/lib/utils.ts`, which is absent from the packaged sources; §4.2 describes
it as a case-insensitive "edit-distance-based ratio", embedded here as
`1 − distance / max-length` (callers lower-case the inputs). -/
def calculateStringSimilarity (a b : String) : JsNum :=
  let m := max a.data.length b.data.length
  if m = 0 then JsNum.ofInt 1
  else JsNum.ofFrac ⟨(m : Int) - (editDistance a.data b.data : Int), (m : Int)⟩

/-! `src/lib/color-utils.ts` (`normalizeColor`, `rgbToHex` companions) -/

def digitRunsAux : List Char → List Char → List (List Char)
  | [], cur => if cur.isEmpty then [] else [cur.reverse]
  | c :: rest, cur =>
    if c.isDigit then digitRunsAux rest (c :: cur)
    else if cur.isEmpty then digitRunsAux rest []
    else cur.reverse :: digitRunsAux rest []

/-- All maximal decimal-digit runs (the matches of `/\d+/g`). -/
def digitRuns (cs : List Char) : List (List Char) := digitRunsAux cs []

def hexDigitChar (n : Nat) : Char :=
  if n < 10 then Char.ofNat (48 + n) else Char.ofNat (87 + n)

def natHexChars (fuel n : Nat) : List Char :=
  match fuel with
  | 0 => []
  | f + 1 =>
    if n < 16 then [hexDigitChar n]
    else natHexChars f (n / 16) ++ [hexDigitChar (n % 16)]

/-- `n.toString(16).padStart(2, "0")`. -/
def natToHexPad2 (n : Nat) : String :=
  let ds := natHexChars (n + 1) n
  String.mk (List.replicate (2 - ds.length) '0' ++ ds)

/-- `normalizeColor`: lower-case hex passes through; `rgb(...)`/`rgba(...)`
is converted to hex (alpha appended only when < 255); anything else is
lower-cased. -/
def normalizeColor (color : String) : String :=
  if strStartsWith color "#" then strToLower color
  else if strStartsWith color "rgb" then
    let ms := digitRuns color.data
    if 3 ≤ ms.length then
      let r := jsParseIntDec (ms.getD 0 [])
      let g := jsParseIntDec (ms.getD 1 [])
      let b := jsParseIntDec (ms.getD 2 [])
      let a := if 4 ≤ ms.length then jsParseIntDec (ms.getD 3 []) else 255
      let hex := "#" ++ natToHexPad2 r ++ natToHexPad2 g ++ natToHexPad2 b
      if a < 255 then hex ++ natToHexPad2 a else hex
    else strToLower color
  else strToLower color

/-- `calculateColorDistance`: `0.0` when either string is not 7 characters,
otherwise `max(0, 1 − √d²/441)` on the parsed RGB components; `none` models
the `NaN` produced when a 7-character string has a non-hex component. -/
def calculateColorDistance (color1 color2 : String) : Option JsNum :=
  if strLen color1 ≠ 7 ∨ strLen color2 ≠ 7 then some (JsNum.ofInt 0)
  else
    match jsParseIntHex ((color1.data.drop 1).take 2), jsParseIntHex ((color1.data.drop 3).take 2),
        jsParseIntHex ((color1.data.drop 5).take 2), jsParseIntHex ((color2.data.drop 1).take 2),
        jsParseIntHex ((color2.data.drop 3).take 2), jsParseIntHex ((color2.data.drop 5).take 2) with
    | some r1, some g1, some b1, some r2, some g2, some b2 =>
      let d2 : Int := ((r2 : Int) - r1) ^ 2 + ((g2 : Int) - g1) ^ 2 + ((b2 : Int) - b1) ^ 2
      some (JsNum.maxQ (Frac.ofInt 0) ⟨Frac.ofInt 1, ⟨-1, 441⟩, ⟨d2, 1⟩⟩)
    | _, _, _, _, _, _ => none

/-- `calculateColorSimilarity`: identical normalized colours score `1.0`;
otherwise the RGB-distance similarity counts only when it is ≥ 0.9, else
`0.0` (a `NaN` distance also fails the ≥ 0.9 test, hence `0.0`). -/
def calculateColorSimilarity (figmaValue tokenValue : String) : JsNum :=
  let nf := normalizeColor figmaValue
  let nt := normalizeColor tokenValue
  if nf = nt then JsNum.ofInt 1
  else
    match calculateColorDistance nf nt with
    | some similarity => if similarity.geF ⟨9, 10⟩ then similarity else JsNum.ofInt 0
    | none => JsNum.ofInt 0

/-- The first match of `/px|rem|em/` removed (`String.replace` with a
non-global regex). -/
def unitMatchLen (cs : List Char) : Option Nat :=
  if listStartsWith cs ['p', 'x'] then some 2
  else if listStartsWith cs ['r', 'e', 'm'] then some 3
  else if listStartsWith cs ['e', 'm'] then some 2
  else none

def stripUnitL : List Char → List Char
  | [] => []
  | c :: rest =>
    match unitMatchLen (c :: rest) with
    | some n => (c :: rest).drop n
    | none => c :: stripUnitL rest

def stripUnit (s : String) : String := String.mk (stripUnitL s.data)

/-- `calculateNumericSimilarity`: parse after stripping one unit suffix;
equal numbers give `1.0`, otherwise `1 − |diff|/average`, kept only when
strictly above 0.8.  (In JS a zero average makes the ratio infinite, which
also fails the `> 0.8` test.) -/
def calculateNumericSimilarity (figmaValue tokenValue : String) : JsNum :=
  match jsParseFloat (stripUnit figmaValue), jsParseFloat (stripUnit tokenValue) with
  | some figmaNumber, some tokenNumber =>
    if figmaNumber.beq tokenNumber then JsNum.ofInt 1
    else
      let difference := (figmaNumber.sub tokenNumber).abs
      let average := (figmaNumber.add tokenNumber).div (Frac.ofInt 2)
      if average.isZero then JsNum.ofInt 0
      else
        let similarity := (Frac.ofInt 1).sub (difference.div average)
        if (⟨8, 10⟩ : Frac).blt similarity then JsNum.ofFrac similarity else JsNum.ofInt 0
  | _, _ => JsNum.ofInt 0

/-- `calculateValueSimilarity` (Step 1): exact textual equality short-circuits
to `1.0`; otherwise dispatch on the property type. -/
def calculateValueSimilarity (figmaValue tokenValue propertyType : String) : JsNum :=
  if figmaValue = tokenValue then JsNum.ofInt 1
  else if propertyType = "fill" ∨ propertyType = "stroke" then
    calculateColorSimilarity figmaValue tokenValue
  else if propertyType = "typography" ∨ propertyType = "font-family" then
    calculateStringSimilarity (strToLower figmaValue) (strToLower tokenValue)
  else if propertyType = "spacing" ∨ propertyType = "padding" ∨
      propertyType = "border-radius" ∨ propertyType = "font-size" ∨
      propertyType = "font-weight" ∨ propertyType = "dimension" then
    calculateNumericSimilarity figmaValue tokenValue
  else
    calculateStringSimilarity (strToLower figmaValue) (strToLower tokenValue)

/-- The keyword tier table of `calculatePropertyTokenNameAlignment`. -/
def semanticKeywords (propertyType : String) :
    Option (List String × List String × List String) :=
  if propertyType = "border-radius" then
    some (["radius", "radii", "border-radius"], ["corner", "rounded", "borderradius"], ["round", "curve"])
  else if propertyType = "spacing" then
    some (["spacing", "space"], ["gap", "margin", "inset", "outset"], ["distance", "separation"])
  else if propertyType = "padding" then
    some (["padding", "pad"], ["inset", "inner-spacing"], ["internal", "inside"])
  else if propertyType = "fill" then
    some (["fill", "background", "bg"], ["color", "colour", "surface"], ["tint", "shade"])
  else if propertyType = "stroke" then
    some (["stroke", "border", "outline"], ["line", "edge"], ["boundary", "perimeter"])
  else if propertyType = "typography" then
    some (["typography", "font", "text"], ["type", "heading", "body", "caption"], ["letter", "character"])
  else if propertyType = "font-size" then
    some (["font-size", "fontsize", "size"], ["text-size", "scale", "fontscale"], ["measure", "dimension"])
  else if propertyType = "font-family" then
    some (["font-family", "fontfamily", "family"], ["font", "typeface", "fontface"], ["type", "text"])
  else if propertyType = "font-weight" then
    some (["font-weight", "fontweight", "weight"], ["bold", "light", "medium", "heavy"], ["thickness", "density"])
  else none

/-- Per-keyword ladder of one tier: name equals the keyword, name contains it
as a dot-delimited pattern, or (for the high/medium tiers) plain containment. -/
def keywordHit (nm k : String) (eqScore patScore : Frac) (containsScore : Option Frac) :
    Option Frac :=
  if nm = k then some eqScore
  else if strContains nm ("." ++ k) || strContains nm (k ++ ".") then some patScore
  else
    match containsScore with
    | some cs => if strContains nm k then some cs else none
    | none => none

/-- `calculatePropertyTokenNameAlignment` (Step 2): the scoring ladder over
the cleaned, lower-cased token name. -/
def calculatePropertyTokenNameAlignment (tokenName : Option String) (propertyType : String) :
    Frac :=
  match tokenName with
  | none => Frac.ofInt 0
  | some tn =>
    let cleanTokenName := extractCleanTokenName tn
    let nm := strToLower cleanTokenName
    match semanticKeywords propertyType with
    | none => Frac.ofInt 0
    | some (ex, hi, med) =>
      if nm = strToLower propertyType then Frac.ofInt 1
      else
        match ex.findSome? (fun k => keywordHit nm k ⟨95, 100⟩ ⟨9, 10⟩ none) with
        | some v => v
        | none =>
          match hi.findSome? (fun k => keywordHit nm k ⟨85, 100⟩ ⟨8, 10⟩ (some ⟨7, 10⟩)) with
          | some v => v
          | none =>
            match med.findSome? (fun k => keywordHit nm k ⟨6, 10⟩ ⟨55, 100⟩ (some ⟨5, 10⟩)) with
            | some v => v
            | none =>
              if strEndsWithAny nm
                  [".xs", ".sm", ".md", ".lg", ".xl", ".xxs", ".xxl", ".2xl", ".3xl", ".4xl", ".5xl"] then
                ⟨4, 10⟩
              else if strEndsWithAny nm
                  [".100", ".200", ".300", ".400", ".500", ".600", ".700", ".800", ".900"] then
                ⟨35, 100⟩
              else if ["size", "width", "height", "value", "amount", "level", "scale"].any
                  (fun t => strContains nm t) then
                ⟨3, 10⟩
              else if allDigitsStr nm || endsDotDigits nm then ⟨1, 10⟩
              else if strContains nm "base." || strContains nm "core." ||
                  strContains nm "foundation." || strContains nm "primitive." then
                ⟨5, 100⟩
              else Frac.ofInt 0

/-- `combineConfidenceScores` (Step 3): the four-tier combination policy with
its two low-score fallbacks. -/
def combineConfidenceScores (valueSimilarity : JsNum) (nameAlignment : Frac)
    (isSemanticToken isExactValueMatch : Bool) : JsNum :=
  if (⟨8, 10⟩ : Frac).ble nameAlignment ∧ isExactValueMatch then
    let baseScore : Frac := if isSemanticToken then (⟨95, 100⟩ : Frac).add ⟨5, 100⟩ else ⟨95, 100⟩
    JsNum.minQ (Frac.ofInt 1) (JsNum.ofFrac baseScore)
  else if (⟨8, 10⟩ : Frac).ble nameAlignment ∧ ¬isExactValueMatch ∧ valueSimilarity.geF ⟨9, 10⟩ then
    let baseScore : Frac := if isSemanticToken then (⟨8, 10⟩ : Frac).add ⟨1, 10⟩ else ⟨8, 10⟩
    let similarityPenalty := (JsNum.subFrom (Frac.ofInt 1) valueSimilarity).mulQ ⟨3, 10⟩
    JsNum.maxQ ⟨8, 10⟩ (JsNum.subFrom baseScore similarityPenalty)
  else if nameAlignment.blt ⟨8, 10⟩ ∧ isExactValueMatch then
    let baseScore : Frac := if isSemanticToken then (⟨7, 10⟩ : Frac).add ⟨15, 100⟩ else ⟨7, 10⟩
    JsNum.minQ ⟨89, 100⟩ (JsNum.ofFrac (baseScore.add (nameAlignment.mul ⟨1, 10⟩)))
  else if nameAlignment.blt ⟨8, 10⟩ ∧ ¬isExactValueMatch ∧ valueSimilarity.geF ⟨9, 10⟩ then
    let baseScore : Frac := if isSemanticToken then (⟨4, 10⟩ : Frac).add ⟨2, 10⟩ else ⟨4, 10⟩
    JsNum.minQ ⟨69, 100⟩
      (((valueSimilarity.addQ ⟨-9, 10⟩).mulQ ⟨5, 10⟩).addQ (baseScore.add (nameAlignment.mul ⟨2, 10⟩)))
  else if valueSimilarity.geF ⟨8, 10⟩ then
    let baseScore : Frac := if isSemanticToken then (⟨3, 10⟩ : Frac).add ⟨1, 10⟩ else ⟨3, 10⟩
    JsNum.minQ ⟨5, 10⟩ (JsNum.ofFrac (baseScore.add (nameAlignment.mul ⟨1, 10⟩)))
  else
    JsNum.maxQ (Frac.ofInt 0) ((valueSimilarity.mulQ ⟨2, 10⟩).addQ (nameAlignment.mul ⟨1, 10⟩))

/-- `calculateMatchConfidence`: value similarity, name alignment, the
exactness flag, and the combination policy. -/
def calculateMatchConfidence (figmaValue tokenValue propertyType : String)
    (isSemanticToken : Bool) (tokenName : Option String) : JsNum :=
  let valueSimilarity := calculateValueSimilarity figmaValue tokenValue propertyType
  let nameAlignment := calculatePropertyTokenNameAlignment tokenName propertyType
  let isExactValueMatch := valueSimilarity.eqF (Frac.ofInt 1)
  combineConfidenceScores valueSimilarity nameAlignment isSemanticToken isExactValueMatch

/-! ### `token-matcher` (`src/unnamed/part_004`) -/

inductive MatchType where
  | exact
  | semantic
  | similar
  | base
  deriving DecidableEq, Repr

/-- An observed hardcoded value handed to the match engine. -/
structure FigmaValue where
  type : String
  value : String
  count : Nat
  locations : List String := []
  nodeIds : Option (List String) := none
  deriving DecidableEq, Repr

structure PotentialMatch where
  tokenName : String
  tokenData : ResolvedToken
  confidence : JsNum
  matchType : MatchType
  deriving DecidableEq, Repr

/-- `calculateSemanticNameScore` (the token-matcher helper). -/
def calculateSemanticNameScore (tokenName : String) : Frac :=
  let nm := strToLower tokenName
  let s : Int :=
    (if strContains nm "space." then 3 else 0) +
    (if strContains nm "spacing." then 2 else 0) +
    (if strContains nm "margin." then 2 else 0) +
    (if strContains nm "padding." then 2 else 0) +
    (if strEndsWithAny nm [".xs", ".sm", ".md", ".lg", ".xl", ".xxs", ".xxl"] then 2 else 0) +
    (if allDigitsStr nm || endsDotDigits nm then -1 else 0)
  Frac.add ⟨s, 1⟩ ⟨max 0 (10 - (strLen tokenName : Int)), 10⟩

/-- The matcher's `compareMatches` comparator: confidence with 0.01 tolerance,
then semantic-before-base, then the spacing numeric-name preference, then the
semantic name score, then the alphabetical tie-break. -/
def compareMatches (a b : PotentialMatch) : Int :=
  if JsNum.absGt a.confidence b.confidence ⟨1, 100⟩ then JsNum.cmpSign b.confidence a.confidence
  else if a.tokenData.isReference && !b.tokenData.isReference then -1
  else if !a.tokenData.isReference && b.tokenData.isReference then 1
  else
    let inner : Option Int :=
      if a.tokenData.isReference = b.tokenData.isReference then
        let spacingCase : Option Int :=
          if strContains a.tokenName "spacing" || strContains b.tokenName "spacing" then
            let aIsNumeric := allDigitsStr ((strSplitDot a.tokenName).getLastD "")
            let bIsNumeric := allDigitsStr ((strSplitDot b.tokenName).getLastD "")
            if aIsNumeric && !bIsNumeric then some 1
            else if !aIsNumeric && bIsNumeric then some (-1)
            else none
          else none
        match spacingCase with
        | some v => some v
        | none =>
          let aScore := calculateSemanticNameScore a.tokenName
          let bScore := calculateSemanticNameScore b.tokenName
          if ¬ aScore.beq bScore then some (if aScore.blt bScore then 1 else -1)
          else none
      else none
    match inner with
    | some v => v
    | none => strCmp a.tokenName b.tokenName

/-- `determineMatchType` of the token-matcher: `exact` only from confidence
≥ 0.98; semantic tokens are `semantic` (≥ 0.9) or `similar`; the rest `base`. -/
def determineMatchType (figmaValue : String) (tokenData : ResolvedToken) (confidence : JsNum) :
    MatchType :=
  if confidence.geF ⟨98, 100⟩ then .exact
  else if tokenData.isReference then
    if confidence.geF ⟨9, 10⟩ then .semantic else .similar
  else .base

/-- The four category lists `findAllPotentialMatches` accumulates. -/
structure MatchBuckets where
  exactMatches : List PotentialMatch := []
  semanticMatches : List PotentialMatch := []
  similarMatches : List PotentialMatch := []
  baseMatches : List PotentialMatch := []
  deriving DecidableEq, Repr

/-- One step of the categorization loop of `findAllPotentialMatches`. -/
def bucketStep (figmaValue : FigmaValue) (st : MatchBuckets) (p : String × ResolvedToken) :
    MatchBuckets :=
  let tokenData := p.2
  if tokenData.value = "" then st
  else
    let confidence := calculateMatchConfidence figmaValue.value tokenData.value figmaValue.type
      tokenData.isReference (some p.1)
    if confidence.eqF (Frac.ofInt 0) then st
    else
      let m : PotentialMatch :=
        ⟨p.1, tokenData, confidence, determineMatchType figmaValue.value tokenData confidence⟩
      if confidence.geF ⟨98, 100⟩ then
        if tokenData.isReference then { st with exactMatches := m :: st.exactMatches }
        else { st with exactMatches := st.exactMatches ++ [m] }
      else if tokenData.isReference && confidence.geF ⟨7, 10⟩ then
        { st with semanticMatches := st.semanticMatches ++ [m] }
      else if confidence.geF ⟨9, 10⟩ then
        { st with similarMatches := st.similarMatches ++ [m] }
      else if confidence.geF ⟨5, 10⟩ then
        { st with baseMatches := st.baseMatches ++ [m] }
      else st

/-- `findAllPotentialMatches`: categorize every token, sort each category with
`compareMatches`, and concatenate with the 6/4/3/2 per-category limits and the
overall top-10 cut. -/
def findAllPotentialMatches (figmaValue : FigmaValue) (tokens : List (String × ResolvedToken)) :
    List PotentialMatch :=
  let st := tokens.foldl (bucketStep figmaValue) {}
  let lt := fun a b => decide (compareMatches a b < 0)
  ((stableSortBy lt st.exactMatches).take 6 ++ (stableSortBy lt st.semanticMatches).take 4 ++
    (stableSortBy lt st.similarMatches).take 3 ++ (stableSortBy lt st.baseMatches).take 2).take 10

/-- One entry of `EnhancedTokenMatch.matches`. -/
structure EnhEntry where
  tokenName : String
  tokenValue : String
  confidence : JsNum
  isSemanticToken : Bool
  referenceChain : Option (List String)
  originalReference : Option String
  tokenType : Option String
  matchType : MatchType
  deriving DecidableEq, Repr

structure EnhancedTokenMatch where
  figmaValue : String
  nodeIds : Option (List String)
  count : Option Nat
  matchList : List EnhEntry
  deriving DecidableEq, Repr

structure TokenMatch where
  figmaValue : String
  tokenName : String
  tokenValue : String
  confidence : JsNum
  suggestions : List String
  isSemanticToken : Bool
  referenceChain : Option (List String)
  originalReference : Option String
  tokenType : Option String
  nodeIds : Option (List String)
  fullTokenPath : Option String
  deriving DecidableEq, Repr

structure UnmatchedValue where
  value : String
  type : String
  count : Nat
  deriving DecidableEq, Repr

structure MatchResult where
  tokenMatches : List TokenMatch
  unmatchedValues : List UnmatchedValue
  deriving DecidableEq, Repr

def toEnhEntry (m : PotentialMatch) : EnhEntry :=
  ⟨m.tokenName, m.tokenData.value, m.confidence, m.tokenData.isReference,
   m.tokenData.referenceChain, m.tokenData.originalReference, m.tokenData.tokenType, m.matchType⟩

def mkEnhanced (fv : FigmaValue) (ms : List PotentialMatch) : EnhancedTokenMatch :=
  ⟨fv.value, fv.nodeIds, some fv.count, ms.map toEnhEntry⟩

/-- `getMatchTypePrefix` (the display label in suggestion strings). -/
def getMatchTypePrefixText (matchType : MatchType) (isSemanticToken : Bool) : String :=
  match matchType with
  | .exact => if isSemanticToken then "[Exact Semantic] " else "[Exact Base] "
  | .semantic => "[Semantic] "
  | .similar => "[Similar] "
  | .base => "[Base] "

/-- The rendered suggestion line for one alternate match. -/
def suggestionText (m : EnhEntry) : String :=
  getMatchTypePrefixText m.matchType m.isSemanticToken ++ m.tokenName ++ " (" ++ m.tokenValue ++
    ") - " ++ natToStr (jsRoundPct (m.confidence.mulQ ⟨100, 1⟩)) ++ "%"

/-- The inner loop of `convertToTokenMatches` for one enhanced match: each
candidate becomes a `TokenMatch` whose suggestions render up to
`MAX_SUGGESTIONS` (= 2) of the other candidates. -/
def perValueTokenMatches (em : EnhancedTokenMatch) : List TokenMatch :=
  em.matchList.enum.map
    (fun p =>
      let otherMatches :=
        (((em.matchList.enum.filter (fun q => q.1 ≠ p.1)).map Prod.snd).take 2).map suggestionText
      ⟨em.figmaValue, extractCleanTokenName p.2.tokenName, p.2.tokenValue, p.2.confidence,
       otherMatches, p.2.isSemanticToken, p.2.referenceChain, p.2.originalReference,
       p.2.tokenType, em.nodeIds, some p.2.tokenName⟩)

def convertToTokenMatches (enhancedMatches : List EnhancedTokenMatch) : List TokenMatch :=
  enhancedMatches.flatMap perValueTokenMatches

/-- `matchValuesWithTokens`: each observed value either contributes an
enhanced match (when any candidate survives) or exactly one unmatched entry. -/
def matchValuesWithTokens (figmaValues : List FigmaValue)
    (tokens : List (String × ResolvedToken)) : MatchResult :=
  let st := figmaValues.foldl
    (fun (st : List EnhancedTokenMatch × List UnmatchedValue) fv =>
      let allMatches := findAllPotentialMatches fv tokens
      if 0 < allMatches.length then (st.1 ++ [mkEnhanced fv allMatches], st.2)
      else (st.1, st.2 ++ [⟨fv.value, fv.type, fv.count⟩]))
    ([], [])
  ⟨convertToTokenMatches st.1, st.2⟩

/-- `getRecommendationsForValue` (frame-analysis recommendations; same
candidate engine). -/
def getRecommendationsForValue (value ty : String) (tokens : List (String × ResolvedToken)) :
    List TokenMatch :=
  (findAllPotentialMatches ⟨ty, value, 1, [], none⟩ tokens).map
    (fun m =>
      ⟨value, extractCleanTokenName m.tokenName, m.tokenData.value, m.confidence, [],
       m.tokenData.isReference, m.tokenData.referenceChain, m.tokenData.originalReference,
       m.tokenData.tokenType, none, some m.tokenName⟩)

/-! ### Derived definitions used by the claim statements -/

/-- The category a candidate falls into in `findAllPotentialMatches`,
read off from the candidate's own data: 0 = exact (confidence ≥ 0.98),
1 = semantic (semantic token with confidence ≥ 0.7), 2 = similar
(confidence ≥ 0.9), 3 = base. -/
def matchCategoryIdx (m : PotentialMatch) : Nat :=
  if m.confidence.geF ⟨98, 100⟩ then 0
  else if m.tokenData.isReference && m.confidence.geF ⟨7, 10⟩ then 1
  else if m.confidence.geF ⟨9, 10⟩ then 2
  else 3

/-- Invariant of the categorization loop: each bucket holds exactly the
candidates that satisfied its guard (and missed all earlier guards), and
every bucketed confidence is a well-formed number. -/
def bucketsInvFull (st : MatchBuckets) : Prop :=
  (∀ m ∈ st.exactMatches, m.confidence.geF ⟨98, 100⟩ = true ∧ m.confidence.WF) ∧
  (∀ m ∈ st.semanticMatches, m.confidence.geF ⟨98, 100⟩ = false ∧
    m.tokenData.isReference = true ∧ m.confidence.geF ⟨7, 10⟩ = true ∧ m.confidence.WF) ∧
  (∀ m ∈ st.similarMatches, m.confidence.geF ⟨98, 100⟩ = false ∧
    (m.tokenData.isReference && m.confidence.geF ⟨7, 10⟩) = false ∧
    m.confidence.geF ⟨9, 10⟩ = true ∧ m.confidence.WF) ∧
  (∀ m ∈ st.baseMatches, m.confidence.geF ⟨98, 100⟩ = false ∧
    (m.tokenData.isReference && m.confidence.geF ⟨7, 10⟩) = false ∧
    m.confidence.geF ⟨9, 10⟩ = false ∧ m.confidence.geF ⟨5, 10⟩ = true ∧ m.confidence.WF)

/-- The match-type table the (corrected) classification follows: `exact`
only from confidence ≥ 0.98; semantic tokens split at 0.9 into
`semantic`/`similar`; non-semantic tokens below 0.98 are `base`. -/
def determineMatchTypeSpec (isSemanticToken : Bool) (confidence : JsNum) : MatchType :=
  if confidence.geF ⟨98, 100⟩ then .exact
  else if isSemanticToken then
    if confidence.geF ⟨9, 10⟩ then .semantic else .similar
  else .base

/-- Embed a Lean rational as a `Frac` (denominators of `ℚ` are positive). -/
def Frac.ofRat (q : ℚ) : Frac := ⟨q.num, (q.den : Int)⟩

def JsNum.ofRat (q : ℚ) : JsNum := JsNum.ofFrac (Frac.ofRat q)

/-- The combination table exactly as the claim words it, in rational
arithmetic: four ordered tiers plus the two fallbacks. -/
def combineConfidenceSpecTable (vs na : ℚ) (isSemanticToken isExactValueMatch : Bool) : ℚ :=
  if 0.8 ≤ na ∧ isExactValueMatch then
    min 1 (0.95 + if isSemanticToken then 0.05 else 0)
  else if 0.8 ≤ na ∧ ¬isExactValueMatch ∧ 0.9 ≤ vs then
    max 0.8 ((if isSemanticToken then 0.8 + 0.1 else 0.8) - (1 - vs) * 0.3)
  else if na < 0.8 ∧ isExactValueMatch then
    min 0.89 ((if isSemanticToken then 0.7 + 0.15 else 0.7) + na * 0.1)
  else if na < 0.8 ∧ ¬isExactValueMatch ∧ 0.9 ≤ vs then
    min 0.69 ((if isSemanticToken then 0.4 + 0.2 else 0.4) + (vs - 0.9) * 0.5 + na * 0.2)
  else if 0.8 ≤ vs then
    min 0.5 ((if isSemanticToken then 0.3 + 0.1 else 0.3) + na * 0.1)
  else vs * 0.2 + na * 0.1

/-- The colour value-similarity as the amended claim words it: identical
normalized forms give 1.0; otherwise, for a pair of parseable 7-character
hex colours, the similarity `1 − √d²/441` (distance normalized by 441)
is reported when ≥ 0.9 and 0.0 below; every other shape of pair gives 0.0. -/
def rgbSimilarity441 (c1 c2 : String) : Option JsNum :=
  if strLen c1 = 7 ∧ strLen c2 = 7 then
    match jsParseIntHex ((c1.data.drop 1).take 2), jsParseIntHex ((c1.data.drop 3).take 2),
        jsParseIntHex ((c1.data.drop 5).take 2), jsParseIntHex ((c2.data.drop 1).take 2),
        jsParseIntHex ((c2.data.drop 3).take 2), jsParseIntHex ((c2.data.drop 5).take 2) with
    | some r1, some g1, some b1, some r2, some g2, some b2 =>
      some ⟨Frac.ofInt 1, ⟨-1, 441⟩,
        ⟨((r2 : Int) - r1) ^ 2 + ((g2 : Int) - g1) ^ 2 + ((b2 : Int) - b1) ^ 2, 1⟩⟩
    | _, _, _, _, _, _ => none
  else none

def colorValueSimilaritySpec (f t : String) : JsNum :=
  let nf := normalizeColor f
  let nt := normalizeColor t
  if nf = nt then JsNum.ofInt 1
  else
    match rgbSimilarity441 nf nt with
    | some s => if s.geF ⟨9, 10⟩ then s else JsNum.ofInt 0
    | none => JsNum.ofInt 0

/-! Concrete fixtures for the counterexamples and witnesses. -/

/-- A semantic (reference-resolved) token with the given value. -/
def semTok (v : String) : ResolvedToken := ⟨v, true, some "\x7bX\x7d", some ["X"], some "spacing"⟩

/-- A base token with the given value. -/
def baseTok (v : String) : ResolvedToken := ⟨v, false, none, none, some "spacing"⟩

/-- Observed value: spacing `8px`, three occurrences. -/
def fvSpacing8 : FigmaValue := ⟨"spacing", "8px", 3, [], none⟩

/-- Observed value: spacing `10px`. -/
def fvSpacing10 : FigmaValue := ⟨"spacing", "10px", 1, [], none⟩

/-- Observed value: spacing `37px` (matches nothing in the fixtures). -/
def fvSpacing37 : FigmaValue := ⟨"spacing", "37px", 2, [], none⟩

/-- Fixture: a numerically-named semantic token and a well-named base token,
both carrying the observed value `8px`. -/
def toksNumericVsNamed : List (String × ResolvedToken) :=
  [("8", semTok "8px"), ("spacing.md", baseTok "8px")]

/-- Fixture: a single well-named base token with value `8px`. -/
def toksNamedOnly : List (String × ResolvedToken) := [("spacing.md", baseTok "8px")]

/-- Fixture: a single perfectly-named semantic token with value `9px`. -/
def toksSemNine : List (String × ResolvedToken) := [("spacing", semTok "9px")]

/-- The circular-reference fixture: inside set `S`, token `A` has value
`{B}` and token `B` has value `{A}`. -/
def cycleTree : RFields :=
  .cons "S" (.obj
    (.cons "A" (.obj (.cons "value" (.str "\x7bB\x7d") (.cons "type" (.str "spacing") .nil)))
      (.cons "B" (.obj (.cons "value" (.str "\x7bA\x7d") (.cons "type" (.str "spacing") .nil)))
        .nil))) .nil

/-- The flattened table of the cycle fixture. -/
def cycleToks : List (String × TokData) :=
  collectAllFromSets cycleTree (defaultAvailableSets cycleTree)

/-- A tree whose `$themes` array explicitly enables the metadata key
`$data`, which itself contains a token leaf. -/
def metaEnabledTree : RFields :=
  .cons "$data" (.obj (.cons "a" (.obj (.cons "value" (.num ⟨1, 1⟩)
      (.cons "type" (.str "spacing") .nil))) .nil))
    (.cons "$themes" (.arr (.cons "0" (.obj (.cons "id" (.str "t") (.cons "name" (.str "T")
      (.cons "selectedTokenSets" (.obj (.cons "$data" (.str "enabled") .nil)) .nil))))
      .nil)) .nil)

/-- A tree with one ordinary set `Base` holding one token leaf, plus a
`$themes` array enabling `Base`. -/
def plainThemedTree : RFields :=
  .cons "Base" (.obj (.cons "a" (.obj (.cons "value" (.str "4px")
      (.cons "type" (.str "spacing") .nil))) .nil))
    (.cons "$themes" (.arr (.cons "0" (.obj (.cons "id" (.str "t") (.cons "name" (.str "T")
      (.cons "selectedTokenSets" (.obj (.cons "Base" (.str "enabled") .nil)) .nil))))
      .nil)) .nil)

/-- A tree with a single set `Off` holding one token leaf. -/
def offTree : RFields :=
  .cons "Off" (.obj (.cons "x" (.obj (.cons "value" (.str "4px")
    (.cons "type" (.str "spacing") .nil))) .nil)) .nil

/-- A theme marking the set `Off` disabled. -/
def offDisabledTheme : Theme := ⟨.str "t1", .str "Theme", [("Off", .str "disabled")]⟩

/-! Depth accounting for the resolver.  The source terminates through its
visited-path sets; in the fueled embedding this surfaces as a per-call
recursion-depth bound: the visited set can absorb each token key at most
once, and between two such absorptions the resolver passes through at most
one `find` frame and one `tryPaths` walk. -/

/-- One more than the number of token keys the visited set has not yet
absorbed (its entries that are keys of the table, each counted once as the
resolver never revisits). -/
def visitBudget (allTokens : List (String × TokData)) (visited : List String) : Nat :=
  allTokens.length + 1 - (visited.filter (fun p => (assocGet allTokens p).isSome)).length

/-- The recursion depth a call can still consume, derived from its visited
set: every nested `direct` resolution shrinks the budget by one, paying for
the bounded `find`/`tryPaths` detour in between. -/
def callMeasure (allTokens : List (String × TokData)) : RCall → Nat
  | .direct _ visited _ =>
    visitBudget allTokens visited * (allTokens.length + 3)
  | .find _ visited _ =>
    visitBudget allTokens visited * (allTokens.length + 3) + (allTokens.length + 2)
  | .tryPaths ps visited _ =>
    visitBudget allTokens visited * (allTokens.length + 3) + ps.length + 1

/-- The visited set a resolver call carries. -/
def RCall.visitedOf : RCall → List String
  | .direct _ v _ => v
  | .find _ v _ => v
  | .tryPaths _ v _ => v

/-! ## Bridge lemmas between the computational layer and `ℚ` -/

namespace Frac

theorem den_cast_pos {x : Frac} (h : x.Pos) : (0 : ℚ) < (x.den : ℚ) := by
  exact_mod_cast h

theorem val_nonneg_iff {x : Frac} (h : x.Pos) : 0 ≤ x.val ↔ 0 ≤ x.num := by
  rw [val, le_div_iff (den_cast_pos h), zero_mul]
  exact_mod_cast Iff.rfl

theorem val_pos_iff {x : Frac} (h : x.Pos) : 0 < x.val ↔ 0 < x.num := by
  rw [val, lt_div_iff (den_cast_pos h), zero_mul]
  exact_mod_cast Iff.rfl

theorem val_eq_zero_iff {x : Frac} (h : x.Pos) : x.val = 0 ↔ x.num = 0 := by
  rw [val, div_eq_zero_iff]
  constructor
  · rintro (h1 | h1)
    · exact_mod_cast h1
    · exact absurd h1 (ne_of_gt (den_cast_pos h))
  · intro h1
    exact Or.inl (by exact_mod_cast h1)

theorem sgn_nonneg_iff {x : Frac} (h : x.Pos) : 0 ≤ x.sgn ↔ 0 ≤ x.val := by
  unfold sgn
  rw [val_nonneg_iff h]
  split_ifs with h1 h2
  · exact ⟨fun _ => le_of_lt h1, fun _ => by omega⟩
  · exact ⟨fun _ => le_of_eq h2.symm, fun _ => by omega⟩
  · exact ⟨fun h3 => by omega, fun h3 => by omega⟩

theorem sgn_pos_iff {x : Frac} (h : x.Pos) : 0 < x.sgn ↔ 0 < x.val := by
  unfold sgn
  rw [val_pos_iff h]
  split_ifs with h1 h2
  · exact ⟨fun _ => h1, fun _ => by omega⟩
  · exact ⟨fun h3 => by omega, fun h3 => by omega⟩
  · exact ⟨fun h3 => by omega, fun h3 => by omega⟩

theorem sgn_nonpos_iff {x : Frac} (h : x.Pos) : x.sgn ≤ 0 ↔ x.val ≤ 0 := by
  have h1 := sgn_pos_iff h
  constructor
  · intro h2
    by_contra h3
    have := h1.mpr (by exact lt_of_not_le h3)
    omega
  · intro h2
    by_contra h3
    have := h1.mp (by omega)
    exact absurd h2 (not_le.mpr this)

theorem sgn_eq_zero_iff {x : Frac} (h : x.Pos) : x.sgn = 0 ↔ x.val = 0 := by
  unfold sgn
  rw [val_eq_zero_iff h]
  split_ifs with h1 h2
  · constructor
    · intro h3
      exact absurd h3 (by decide)
    · intro h3
      omega
  · exact ⟨fun _ => h2, fun _ => rfl⟩
  · constructor
    · intro h3
      exact absurd h3 (by decide)
    · intro h3
      exact absurd h3 h2

theorem ble_iff {x y : Frac} (hx : x.Pos) (hy : y.Pos) :
    x.ble y = true ↔ x.val ≤ y.val := by
  unfold ble val
  rw [div_le_div_iff (den_cast_pos hx) (den_cast_pos hy), decide_eq_true_iff]
  exact_mod_cast Iff.rfl

theorem blt_iff {x y : Frac} (hx : x.Pos) (hy : y.Pos) :
    x.blt y = true ↔ x.val < y.val := by
  unfold blt val
  rw [div_lt_div_iff (den_cast_pos hx) (den_cast_pos hy), decide_eq_true_iff]
  exact_mod_cast Iff.rfl

theorem beq_iff {x y : Frac} (hx : x.Pos) (hy : y.Pos) :
    x.beq y = true ↔ x.val = y.val := by
  unfold beq val
  rw [div_eq_div_iff (ne_of_gt (den_cast_pos hx)) (ne_of_gt (den_cast_pos hy)),
    decide_eq_true_iff]
  exact_mod_cast Iff.rfl

theorem isZero_iff {x : Frac} (h : x.Pos) : x.isZero = true ↔ x.val = 0 := by
  unfold isZero
  rw [decide_eq_true_iff, val_eq_zero_iff h]

theorem val_add {x y : Frac} (hx : x.Pos) (hy : y.Pos) :
    (x.add y).val = x.val + y.val := by
  have hx' : (x.den : ℚ) ≠ 0 := ne_of_gt (den_cast_pos hx)
  have hy' : (y.den : ℚ) ≠ 0 := ne_of_gt (den_cast_pos hy)
  unfold add val
  push_cast
  field_simp
  try ring

theorem val_sub {x y : Frac} (hx : x.Pos) (hy : y.Pos) :
    (x.sub y).val = x.val - y.val := by
  have hx' : (x.den : ℚ) ≠ 0 := ne_of_gt (den_cast_pos hx)
  have hy' : (y.den : ℚ) ≠ 0 := ne_of_gt (den_cast_pos hy)
  unfold sub val
  push_cast
  field_simp
  try ring

theorem val_mul (x y : Frac) : (x.mul y).val = x.val * y.val := by
  unfold mul val
  push_cast
  rw [div_mul_div_comm]

theorem val_neg (x : Frac) : x.neg.val = -x.val := by
  unfold neg val
  push_cast
  ring

theorem val_ofInt (n : Int) : (ofInt n).val = (n : ℚ) := by
  unfold ofInt val
  norm_num

theorem val_abs {x : Frac} (h : x.Pos) : x.abs.val = |x.val| := by
  unfold abs val
  rw [abs_div, abs_of_pos (den_cast_pos h)]
  norm_num [Int.cast_natAbs]

theorem val_ofRat (q : ℚ) : (Frac.ofRat q).val = q := by
  unfold Frac.ofRat val
  dsimp only
  exact_mod_cast Rat.num_div_den q

theorem ofInt_pos (n : Int) : (ofInt n).Pos := Int.one_pos

theorem make_pos {n d : Int} (h : d ≠ 0) : (make n d).Pos := by
  unfold make Pos
  split <;> dsimp only <;> omega

theorem add_pos' {x y : Frac} (hx : x.Pos) (hy : y.Pos) : (x.add y).Pos :=
  Int.mul_pos hx hy

theorem sub_pos' {x y : Frac} (hx : x.Pos) (hy : y.Pos) : (x.sub y).Pos :=
  Int.mul_pos hx hy

theorem mul_pos' {x y : Frac} (hx : x.Pos) (hy : y.Pos) : (x.mul y).Pos :=
  Int.mul_pos hx hy

theorem neg_pos' {x : Frac} (hx : x.Pos) : x.neg.Pos := hx

theorem abs_pos' {x : Frac} (hx : x.Pos) : x.abs.Pos := hx

theorem div_pos' {x y : Frac} (hx : x.Pos) (hy : y.Pos) (hz : y.isZero = false) :
    (x.div y).Pos := by
  unfold div
  apply make_pos
  unfold isZero at hz
  simp only [decide_eq_false_iff_not] at hz
  unfold Pos at hx
  exact mul_ne_zero (by omega) hz

theorem ofRat_pos (q : ℚ) : (Frac.ofRat q).Pos := by
  unfold Frac.ofRat Pos
  dsimp only
  exact_mod_cast q.den_pos

end Frac


/-! ## Real-number semantics of the `JsNum` comparison layer

`sgnAux a b r` computes the sign of `a + b·√r` by case analysis and
squaring; the lemmas here verify that computation against `Real.sqrt`
(which, like the code's reading, sends nonpositive radicands to `0`). -/

namespace JsNum

theorem sgnAux_spec {a b r : Frac} (ha : a.Pos) (hb : b.Pos) (hr : r.Pos) :
    (0 < sgnAux a b r ↔ 0 < (a.val : ℝ) + (b.val : ℝ) * Real.sqrt (r.val : ℝ)) ∧
    (sgnAux a b r = 0 ↔ (a.val : ℝ) + (b.val : ℝ) * Real.sqrt (r.val : ℝ) = 0) := by
  by_cases hc : (b.isZero || decide (r.sgn ≤ 0)) = true
  · have hbs : (b.val : ℝ) * Real.sqrt (r.val : ℝ) = 0 := by
      rcases Bool.or_eq_true_iff.mp hc with h | h
      · have hz : b.val = 0 := (Frac.isZero_iff hb).mp h
        rw [hz]
        push_cast
        ring
      · have hz : r.val ≤ 0 := (Frac.sgn_nonpos_iff hr).mp (of_decide_eq_true h)
        have hs0 : Real.sqrt ((r.val : ℝ)) = 0 := Real.sqrt_eq_zero'.mpr (by exact_mod_cast hz)
        rw [hs0, mul_zero]
    unfold sgnAux
    rw [if_pos hc, hbs, add_zero]
    constructor
    · rw [Frac.sgn_pos_iff ha]
      exact Rat.cast_pos.symm
    · rw [Frac.sgn_eq_zero_iff ha]
      exact Rat.cast_eq_zero.symm
  · have hc' : (b.isZero || decide (r.sgn ≤ 0)) = false := by
      simpa using hc
    obtain ⟨hbz, hrz⟩ := Bool.or_eq_false_iff.mp hc'
    have hbvne : b.val ≠ 0 := fun hv => by simp [(Frac.isZero_iff hb).mpr hv] at hbz
    have hrpos : 0 < r.val := by
      have h2 : ¬ (r.sgn ≤ 0) := of_decide_eq_false hrz
      rw [Frac.sgn_nonpos_iff hr] at h2
      exact lt_of_not_le h2
    set S : ℝ := Real.sqrt ((r.val : ℝ)) with hSdef
    have hS : S * S = ((r.val : ℝ)) := Real.mul_self_sqrt (by exact_mod_cast hrpos.le)
    have hSpos : 0 < S := Real.sqrt_pos.mpr (by exact_mod_cast hrpos)
    have hP1 : (a.mul a).Pos := Frac.mul_pos' ha ha
    have hP2 : ((b.mul b).mul r).Pos := Frac.mul_pos' (Frac.mul_pos' hb hb) hr
    have hblt : ((a.mul a).blt ((b.mul b).mul r) = true) ↔
        ((a.val : ℝ)) * ((a.val : ℝ)) < ((b.val : ℝ)) * ((b.val : ℝ)) * ((r.val : ℝ)) := by
      rw [Frac.blt_iff hP1 hP2, Frac.val_mul, Frac.val_mul, Frac.val_mul]
      exact_mod_cast Iff.rfl
    have hblt' : (((b.mul b).mul r).blt (a.mul a) = true) ↔
        ((b.val : ℝ)) * ((b.val : ℝ)) * ((r.val : ℝ)) < ((a.val : ℝ)) * ((a.val : ℝ)) := by
      rw [Frac.blt_iff hP2 hP1, Frac.val_mul, Frac.val_mul, Frac.val_mul]
      exact_mod_cast Iff.rfl
    have hbeq : ((a.mul a).beq ((b.mul b).mul r) = true) ↔
        ((a.val : ℝ)) * ((a.val : ℝ)) = ((b.val : ℝ)) * ((b.val : ℝ)) * ((r.val : ℝ)) := by
      rw [Frac.beq_iff hP1 hP2, Frac.val_mul, Frac.val_mul, Frac.val_mul]
      exact_mod_cast Iff.rfl
    unfold sgnAux
    rw [if_neg hc]
    by_cases hbp : 0 < b.sgn
    · rw [if_pos hbp]
      have hB : (0 : ℝ) < ((b.val : ℝ)) := by exact_mod_cast (Frac.sgn_pos_iff hb).mp hbp
      by_cases han : 0 ≤ a.sgn
      · rw [if_pos han]
        have hA : (0 : ℝ) ≤ ((a.val : ℝ)) := by
          exact_mod_cast (Frac.sgn_nonneg_iff ha).mp han
        have hv : 0 < (a.val : ℝ) + (b.val : ℝ) * S := by nlinarith [mul_pos hB hSpos]
        exact ⟨iff_of_true Int.one_pos hv, iff_of_false (by decide) (by linarith)⟩
      · rw [if_neg han]
        have hA : ((a.val : ℝ)) < 0 := by
          have h4 : a.sgn ≤ 0 := by omega
          have h5 : a.val ≤ 0 := (Frac.sgn_nonpos_iff ha).mp h4
          have h6 : a.val ≠ 0 := fun hv => by
            have := (Frac.sgn_eq_zero_iff ha).mpr hv
            omega
          exact_mod_cast lt_of_le_of_ne h5 h6
        by_cases h1 : (a.mul a).blt ((b.mul b).mul r) = true
        · rw [if_pos h1]
          have hk := hblt.mp h1
          have hv : 0 < (a.val : ℝ) + (b.val : ℝ) * S := by
            nlinarith [hk, hS, hA, mul_pos hB hSpos, sq_nonneg ((a.val : ℝ) + (b.val : ℝ) * S)]
          exact ⟨iff_of_true Int.one_pos hv, iff_of_false (by decide) (by linarith)⟩
        · rw [if_neg h1]
          have hk : ((b.val : ℝ)) * ((b.val : ℝ)) * ((r.val : ℝ)) ≤
              ((a.val : ℝ)) * ((a.val : ℝ)) :=
            le_of_not_lt (fun hh => h1 (hblt.mpr hh))
          by_cases h2 : (a.mul a).beq ((b.mul b).mul r) = true
          · rw [if_pos h2]
            have hk2 := hbeq.mp h2
            have hfac : (((a.val : ℝ)) + ((b.val : ℝ)) * S) * (((b.val : ℝ)) * S - ((a.val : ℝ))) = 0 := by
              linear_combination ((b.val : ℝ)) * ((b.val : ℝ)) * hS - hk2
            have hpos : 0 < ((b.val : ℝ)) * S - ((a.val : ℝ)) := by
              nlinarith [mul_pos hB hSpos]
            have hv : ((a.val : ℝ)) + ((b.val : ℝ)) * S = 0 := by
              rcases mul_eq_zero.mp hfac with h | h
              · exact h
              · linarith
            refine ⟨iff_of_false (by decide) ?_, iff_of_true rfl hv⟩
            rw [hv]
            exact lt_irrefl 0
          · rw [if_neg h2]
            have hk2 : ((a.val : ℝ)) * ((a.val : ℝ)) ≠
                ((b.val : ℝ)) * ((b.val : ℝ)) * ((r.val : ℝ)) := fun hh => h2 (hbeq.mpr hh)
            have hstrict : ((b.val : ℝ)) * ((b.val : ℝ)) * ((r.val : ℝ)) <
                ((a.val : ℝ)) * ((a.val : ℝ)) := lt_of_le_of_ne hk (fun hh => hk2 hh.symm)
            have hv : ((a.val : ℝ)) + ((b.val : ℝ)) * S < 0 := by
              nlinarith [hstrict, hS, hA, mul_pos hB hSpos,
                sq_nonneg ((a.val : ℝ) + (b.val : ℝ) * S)]
            refine ⟨iff_of_false (by decide) (by linarith), iff_of_false (by decide) ?_⟩
            intro hh
            rw [hh] at hv
            exact lt_irrefl 0 hv
    · rw [if_neg hbp]
      have hBneg : ((b.val : ℝ)) < 0 := by
        have h4 : b.sgn ≤ 0 := by omega
        have h5 : b.val ≤ 0 := (Frac.sgn_nonpos_iff hb).mp h4
        exact_mod_cast lt_of_le_of_ne h5 hbvne
      have hBS : ((b.val : ℝ)) * S < 0 := mul_neg_of_neg_of_pos hBneg hSpos
      by_cases han : a.sgn ≤ 0
      · rw [if_pos han]
        have hA : ((a.val : ℝ)) ≤ 0 := by exact_mod_cast (Frac.sgn_nonpos_iff ha).mp han
        have hv : ((a.val : ℝ)) + ((b.val : ℝ)) * S < 0 := by linarith
        refine ⟨iff_of_false (by decide) (by linarith), iff_of_false (by decide) ?_⟩
        intro hh
        rw [hh] at hv
        exact lt_irrefl 0 hv
      · rw [if_neg han]
        have hA : 0 < ((a.val : ℝ)) := by
          have h4 : 0 < a.sgn := by omega
          exact_mod_cast (Frac.sgn_pos_iff ha).mp h4
        by_cases h1 : ((b.mul b).mul r).blt (a.mul a) = true
        · rw [if_pos h1]
          have hk := hblt'.mp h1
          have hv : 0 < ((a.val : ℝ)) + ((b.val : ℝ)) * S := by
            nlinarith [hk, hS, hA, hBS, sq_nonneg ((a.val : ℝ) + (b.val : ℝ) * S)]
          exact ⟨iff_of_true Int.one_pos hv, iff_of_false (by decide) (by linarith)⟩
        · rw [if_neg h1]
          have hk : ((a.val : ℝ)) * ((a.val : ℝ)) ≤
              ((b.val : ℝ)) * ((b.val : ℝ)) * ((r.val : ℝ)) :=
            le_of_not_lt (fun hh => h1 (hblt'.mpr hh))
          by_cases h2 : (a.mul a).beq ((b.mul b).mul r) = true
          · rw [if_pos h2]
            have hk2 := hbeq.mp h2
            have hfac : (((a.val : ℝ)) + ((b.val : ℝ)) * S) * (((a.val : ℝ)) - ((b.val : ℝ)) * S) = 0 := by
              linear_combination hk2 - ((b.val : ℝ)) * ((b.val : ℝ)) * hS
            have hpos : 0 < ((a.val : ℝ)) - ((b.val : ℝ)) * S := by linarith
            have hv : ((a.val : ℝ)) + ((b.val : ℝ)) * S = 0 := by
              rcases mul_eq_zero.mp hfac with h | h
              · exact h
              · linarith
            refine ⟨iff_of_false (by decide) ?_, iff_of_true rfl hv⟩
            rw [hv]
            exact lt_irrefl 0
          · rw [if_neg h2]
            have hk2 : ((a.val : ℝ)) * ((a.val : ℝ)) ≠
                ((b.val : ℝ)) * ((b.val : ℝ)) * ((r.val : ℝ)) := fun hh => h2 (hbeq.mpr hh)
            have hstrict : ((a.val : ℝ)) * ((a.val : ℝ)) <
                ((b.val : ℝ)) * ((b.val : ℝ)) * ((r.val : ℝ)) := lt_of_le_of_ne hk hk2
            have hv : ((a.val : ℝ)) + ((b.val : ℝ)) * S < 0 := by
              nlinarith [hstrict, hS, hA, hBS, sq_nonneg ((a.val : ℝ) - (b.val : ℝ) * S)]
            refine ⟨iff_of_false (by decide) (by linarith), iff_of_false (by decide) ?_⟩
            intro hh
            rw [hh] at hv
            exact lt_irrefl 0 hv

theorem sgnAux_pos_iff {a b r : Frac} (ha : a.Pos) (hb : b.Pos) (hr : r.Pos) :
    0 < sgnAux a b r ↔ 0 < (a.val : ℝ) + (b.val : ℝ) * Real.sqrt (r.val : ℝ) :=
  (sgnAux_spec ha hb hr).1

theorem sgnAux_eq_zero_iff {a b r : Frac} (ha : a.Pos) (hb : b.Pos) (hr : r.Pos) :
    sgnAux a b r = 0 ↔ (a.val : ℝ) + (b.val : ℝ) * Real.sqrt (r.val : ℝ) = 0 :=
  (sgnAux_spec ha hb hr).2

theorem sgnAux_nonneg_iff {a b r : Frac} (ha : a.Pos) (hb : b.Pos) (hr : r.Pos) :
    0 ≤ sgnAux a b r ↔ 0 ≤ (a.val : ℝ) + (b.val : ℝ) * Real.sqrt (r.val : ℝ) := by
  obtain ⟨h1, h2⟩ := sgnAux_spec ha hb hr
  constructor
  · intro h
    rcases eq_or_lt_of_le h with h' | h'
    · exact le_of_eq (h2.mp h'.symm).symm
    · exact le_of_lt (h1.mp h')
  · intro h
    rcases eq_or_lt_of_le h with h' | h'
    · exact le_of_eq (h2.mpr h'.symm).symm
    · exact le_of_lt (h1.mpr h')

theorem sgnAux_nonpos_iff {a b r : Frac} (ha : a.Pos) (hb : b.Pos) (hr : r.Pos) :
    sgnAux a b r ≤ 0 ↔ (a.val : ℝ) + (b.val : ℝ) * Real.sqrt (r.val : ℝ) ≤ 0 := by
  have h1 := sgnAux_pos_iff ha hb hr
  constructor
  · intro h
    by_contra hv
    push_neg at hv
    have := h1.mpr hv
    omega
  · intro h
    by_contra hs
    push_neg at hs
    have := h1.mp hs
    linarith

/-- `geF` against the real value: `x.geF q` decides `q ≤ x`. -/
theorem geF_iff {x : JsNum} (hx : x.WF) {q : Frac} (hq : q.Pos) :
    x.geF q = true ↔
      ((q.val : ℝ)) ≤ (x.a.val : ℝ) + (x.b.val : ℝ) * Real.sqrt (x.r.val : ℝ) := by
  obtain ⟨ha, hb, hr⟩ := hx
  unfold geF
  rw [decide_eq_true_eq, sgnAux_nonneg_iff (Frac.sub_pos' ha hq) hb hr, Frac.val_sub ha hq]
  push_cast
  constructor <;> intro <;> linarith

/-- `leF` against the real value: `x.leF q` decides `x ≤ q`. -/
theorem leF_iff {x : JsNum} (hx : x.WF) {q : Frac} (hq : q.Pos) :
    x.leF q = true ↔
      (x.a.val : ℝ) + (x.b.val : ℝ) * Real.sqrt (x.r.val : ℝ) ≤ ((q.val : ℝ)) := by
  obtain ⟨ha, hb, hr⟩ := hx
  unfold leF
  rw [decide_eq_true_eq, sgnAux_nonpos_iff (Frac.sub_pos' ha hq) hb hr, Frac.val_sub ha hq]
  push_cast
  constructor <;> intro <;> linarith

/-- Threshold monotonicity: a value at least `q` is at least any `p ≤ q`. -/
theorem geF_mono {x : JsNum} (hx : x.WF) {p q : Frac} (hp : p.Pos) (hq : q.Pos)
    (hpq : p.val ≤ q.val) (h : x.geF q = true) : x.geF p = true := by
  rw [geF_iff hx hp]
  rw [geF_iff hx hq] at h
  have hc : ((p.val : ℝ)) ≤ ((q.val : ℝ)) := by exact_mod_cast hpq
  linarith

/-! WF closure of the `JsNum` operations. -/

theorem ofFrac_wf {f : Frac} (hf : f.Pos) : (ofFrac f).WF :=
  ⟨hf, Int.one_pos, Int.one_pos⟩

theorem ofInt_wf (n : Int) : (ofInt n).WF :=
  ofFrac_wf (Frac.ofInt_pos n)

theorem ofRat_wf (q : ℚ) : (JsNum.ofRat q).WF :=
  ofFrac_wf (Frac.ofRat_pos q)

theorem addQ_wf {x : JsNum} (hx : x.WF) {q : Frac} (hq : q.Pos) : (x.addQ q).WF :=
  ⟨Frac.add_pos' hx.1 hq, hx.2.1, hx.2.2⟩

theorem mulQ_wf {x : JsNum} (hx : x.WF) {q : Frac} (hq : q.Pos) : (x.mulQ q).WF :=
  ⟨Frac.mul_pos' hx.1 hq, Frac.mul_pos' hx.2.1 hq, hx.2.2⟩

theorem subFrom_wf {q : Frac} (hq : q.Pos) {x : JsNum} (hx : x.WF) : (subFrom q x).WF :=
  ⟨Frac.sub_pos' hq hx.1, Frac.neg_pos' hx.2.1, hx.2.2⟩

theorem maxQ_wf {q : Frac} (hq : q.Pos) {x : JsNum} (hx : x.WF) : (maxQ q x).WF := by
  unfold maxQ
  split
  · exact hx
  · exact ofFrac_wf hq

theorem minQ_wf {q : Frac} (hq : q.Pos) {x : JsNum} (hx : x.WF) : (minQ q x).WF := by
  unfold minQ
  split
  · exact hx
  · exact ofFrac_wf hq

/-! Purely rational `JsNum`s (vanishing radical part): the comparisons
reduce to rational comparisons. -/

theorem sgnAux_bzero {b : Frac} (a r : Frac) (hb : b.num = 0) : sgnAux a b r = a.sgn := by
  unfold sgnAux
  have hz : b.isZero = true := by
    unfold Frac.isZero
    simp [hb]
  rw [if_pos (by rw [hz]; rfl)]

theorem geF_bzero {x : JsNum} (hb : x.b.num = 0) (ha : x.a.Pos) {q : Frac} (hq : q.Pos) :
    x.geF q = true ↔ q.val ≤ x.a.val := by
  unfold geF
  rw [decide_eq_true_eq, sgnAux_bzero _ _ hb,
    Frac.sgn_nonneg_iff (Frac.sub_pos' ha hq), Frac.val_sub ha hq]
  constructor <;> intro <;> linarith

theorem leF_bzero {x : JsNum} (hb : x.b.num = 0) (ha : x.a.Pos) {q : Frac} (hq : q.Pos) :
    x.leF q = true ↔ x.a.val ≤ q.val := by
  unfold leF
  rw [decide_eq_true_eq, sgnAux_bzero _ _ hb,
    Frac.sgn_nonpos_iff (Frac.sub_pos' ha hq), Frac.val_sub ha hq]
  constructor <;> intro <;> linarith

theorem eqF_bzero {x : JsNum} (hb : x.b.num = 0) (ha : x.a.Pos) {q : Frac} (hq : q.Pos) :
    x.eqF q = true ↔ x.a.val = q.val := by
  unfold eqF
  rw [decide_eq_true_eq, sgnAux_bzero _ _ hb,
    Frac.sgn_eq_zero_iff (Frac.sub_pos' ha hq), Frac.val_sub ha hq]
  constructor <;> intro h <;> linarith

end JsNum

/-! ## Well-formedness of the confidence pipeline

Every number the pipeline produces is represented with positive
denominators, so the exact comparisons of the previous section apply. -/

theorem jsParseFloat_pos {s : String} {f : Frac} (h : jsParseFloat s = some f) : f.Pos := by
  simp only [jsParseFloat] at h
  iterate 12 (all_goals try split at h)
  all_goals cases h
  all_goals unfold Frac.Pos
  all_goals dsimp only
  all_goals
    first
    | exact Int.one_pos
    | exact pow_pos (by norm_num) _

theorem calculateStringSimilarity_wf (a b : String) : (calculateStringSimilarity a b).WF := by
  simp only [calculateStringSimilarity]
  split
  · exact JsNum.ofInt_wf 1
  · next hm =>
    apply JsNum.ofFrac_wf
    unfold Frac.Pos
    dsimp only
    omega

theorem calculateColorDistance_wf {c1 c2 : String} {x : JsNum}
    (h : calculateColorDistance c1 c2 = some x) : x.WF := by
  unfold calculateColorDistance at h
  split at h
  · cases h
    exact JsNum.ofInt_wf 0
  · split at h
    · cases h
      exact JsNum.maxQ_wf (Frac.ofInt_pos 0) ⟨Int.one_pos, by norm_num [Frac.Pos], Int.one_pos⟩
    · exact absurd h (by simp)

theorem calculateColorSimilarity_wf (f t : String) : (calculateColorSimilarity f t).WF := by
  dsimp only [calculateColorSimilarity]
  split
  · exact JsNum.ofInt_wf 1
  · split
    · split
      · exact calculateColorDistance_wf (by assumption)
      · exact JsNum.ofInt_wf 0
    · exact JsNum.ofInt_wf 0

theorem calculateNumericSimilarity_wf (f t : String) :
    (calculateNumericSimilarity f t).WF := by
  dsimp only [calculateNumericSimilarity]
  split
  · next figmaNumber tokenNumber h1 h2 =>
    have hf := jsParseFloat_pos h1
    have ht := jsParseFloat_pos h2
    split
    · exact JsNum.ofInt_wf 1
    · split
      · exact JsNum.ofInt_wf 0
      · next hz =>
        split
        · apply JsNum.ofFrac_wf
          apply Frac.sub_pos' (Frac.ofInt_pos 1)
          apply Frac.div_pos' (Frac.abs_pos' (Frac.sub_pos' hf ht))
          · exact Frac.div_pos' (Frac.add_pos' hf ht) (Frac.ofInt_pos 2) (by decide)
          · simpa using hz
        · exact JsNum.ofInt_wf 0
  · exact JsNum.ofInt_wf 0

theorem calculateValueSimilarity_wf (f t pt : String) :
    (calculateValueSimilarity f t pt).WF := by
  unfold calculateValueSimilarity
  split
  · exact JsNum.ofInt_wf 1
  · split
    · exact calculateColorSimilarity_wf f t
    · split
      · exact calculateStringSimilarity_wf _ _
      · split
        · exact calculateNumericSimilarity_wf f t
        · exact calculateStringSimilarity_wf _ _

theorem keywordHit_pos {nm k : String} {e p : Frac} {c : Option Frac} (he : e.Pos) (hp : p.Pos)
    (hc : ∀ x ∈ c, x.Pos) {v : Frac} (h : keywordHit nm k e p c = some v) : v.Pos := by
  unfold keywordHit at h
  split at h
  · cases h
    exact he
  · split at h
    · cases h
      exact hp
    · split at h
      · split at h
        · cases h
          exact hc _ (by simp)
        · exact absurd h (by simp)
      · exact absurd h (by simp)

theorem findSome?_pos {α : Type} {f : α → Option Frac} {l : List α}
    (hf : ∀ a v, f a = some v → v.Pos) {v : Frac} (h : l.findSome? f = some v) : v.Pos := by
  induction l with
  | nil => simp [List.findSome?] at h
  | cons a as ih =>
    cases hfa : f a with
    | some w =>
      rw [List.findSome?_cons, hfa] at h
      cases h
      exact hf a _ hfa
    | none =>
      rw [List.findSome?_cons, hfa] at h
      exact ih h

theorem alignment_pos (tn : Option String) (pt : String) :
    (calculatePropertyTokenNameAlignment tn pt).Pos := by
  dsimp only [calculatePropertyTokenNameAlignment]
  split
  · decide
  · split
    · decide
    · split
      · decide
      · split
        · next heq =>
          exact findSome?_pos (fun a w hw => keywordHit_pos (by decide) (by decide)
            (by simp) hw) heq
        · split
          · next heq =>
            exact findSome?_pos (fun a w hw => keywordHit_pos (by decide) (by decide)
              (fun x hx => by simp at hx; subst hx; decide) hw) heq
          · split
            · next heq =>
              exact findSome?_pos (fun a w hw => keywordHit_pos (by decide) (by decide)
                (fun x hx => by simp at hx; subst hx; decide) hw) heq
            · split
              · decide
              · split
                · decide
                · split
                  · decide
                  · split
                    · decide
                    · split
                      · decide
                      · decide

theorem combineConfidenceScores_wf {v : JsNum} (hv : v.WF) {na : Frac} (hna : na.Pos)
    (sem ex : Bool) : (combineConfidenceScores v na sem ex).WF := by
  unfold combineConfidenceScores
  split
  · apply JsNum.minQ_wf (Frac.ofInt_pos 1)
    apply JsNum.ofFrac_wf
    split <;> decide
  · split
    · apply JsNum.maxQ_wf (by decide)
      apply JsNum.subFrom_wf
      · split <;> decide
      · exact JsNum.mulQ_wf (JsNum.subFrom_wf (Frac.ofInt_pos 1) hv) (by decide)
    · split
      · apply JsNum.minQ_wf (by decide)
        apply JsNum.ofFrac_wf
        exact Frac.add_pos' (by split <;> decide) (Frac.mul_pos' hna (by decide))
      · split
        · apply JsNum.minQ_wf (by decide)
          apply JsNum.addQ_wf
          · exact JsNum.mulQ_wf (JsNum.addQ_wf hv (by decide)) (by decide)
          · exact Frac.add_pos' (by split <;> decide) (Frac.mul_pos' hna (by decide))
        · split
          · apply JsNum.minQ_wf (by decide)
            apply JsNum.ofFrac_wf
            exact Frac.add_pos' (by split <;> decide) (Frac.mul_pos' hna (by decide))
          · exact JsNum.maxQ_wf (Frac.ofInt_pos 0)
              (JsNum.addQ_wf (JsNum.mulQ_wf hv (by decide)) (Frac.mul_pos' hna (by decide)))

theorem calculateMatchConfidence_wf (f t pt : String) (sem : Bool) (tn : Option String) :
    (calculateMatchConfidence f t pt sem tn).WF := by
  unfold calculateMatchConfidence
  exact combineConfidenceScores_wf (calculateValueSimilarity_wf f t pt)
    (alignment_pos tn pt) sem _

/-! ## List machinery: the dedup fold, the stable sort, and the buckets -/

theorem dedupFold_mem_of_mem_acc {l acc : List String} {s : String} (h : s ∈ acc) :
    s ∈ l.foldl (fun acc s => if acc.contains s then acc else acc ++ [s]) acc := by
  induction l generalizing acc with
  | nil => exact h
  | cons a as ih =>
    simp only [List.foldl_cons]
    split
    · exact ih h
    · exact ih (List.mem_append_left _ h)

theorem dedupFold_mem {l : List String} {s : String} (h : s ∈ l) (acc : List String) :
    s ∈ l.foldl (fun acc s => if acc.contains s then acc else acc ++ [s]) acc := by
  induction l generalizing acc with
  | nil => cases h
  | cons a as ih =>
    simp only [List.foldl_cons]
    rcases List.mem_cons.mp h with rfl | h'
    · split
      · next hc => exact dedupFold_mem_of_mem_acc (by simpa using hc)
      · exact dedupFold_mem_of_mem_acc (List.mem_append_right _ (by simp))
    · exact ih h' _

theorem stableInsert_subset {α : Type} {lt : α → α → Bool} {x a : α} {l : List α}
    (h : a ∈ stableInsert lt x l) : a = x ∨ a ∈ l := by
  induction l with
  | nil => simpa [stableInsert] using h
  | cons y ys ih =>
    unfold stableInsert at h
    split at h
    · rcases List.mem_cons.mp h with rfl | h'
      · exact Or.inl rfl
      · exact Or.inr h'
    · rcases List.mem_cons.mp h with rfl | h'
      · exact Or.inr (List.mem_cons_self _ _)
      · rcases ih h' with h'' | h''
        · exact Or.inl h''
        · exact Or.inr (List.mem_cons_of_mem _ h'')

theorem stableSortBy_subset {α : Type} {lt : α → α → Bool} {a : α} {l : List α}
    (h : a ∈ stableSortBy lt l) : a ∈ l := by
  unfold stableSortBy at h
  suffices H : ∀ (l acc : List α),
      a ∈ l.foldl (fun acc x => stableInsert lt x acc) acc → a ∈ acc ∨ a ∈ l by
    rcases H l [] h with h' | h'
    · cases h'
    · exact h'
  intro l
  induction l with
  | nil => exact fun acc h => Or.inl h
  | cons x xs ih =>
    intro acc h
    simp only [List.foldl_cons] at h
    rcases ih _ h with h' | h'
    · rcases stableInsert_subset h' with rfl | h''
      · exact Or.inr (List.mem_cons_self _ _)
      · exact Or.inl h''
    · exact Or.inr (List.mem_cons_of_mem _ h')

theorem pairwise_le_of_const {α : Type} {f : α → Nat} {i : Nat} {l : List α}
    (h : ∀ m ∈ l, f m = i) : l.Pairwise (fun a b => f a ≤ f b) := by
  induction l with
  | nil => exact List.Pairwise.nil
  | cons x xs ih =>
    refine List.Pairwise.cons ?_ (ih fun m hm => h m (List.mem_cons_of_mem _ hm))
    intro b hb
    rw [h x (List.mem_cons_self _ _), h b (List.mem_cons_of_mem _ hb)]

/-! The categorization-loop invariant. -/

theorem bucketsInvFull_empty : bucketsInvFull {} := by
  refine ⟨?_, ?_, ?_, ?_⟩ <;> intro m hm <;> cases hm

theorem bucketStep_inv {fv : FigmaValue} {st : MatchBuckets}
    (hst : bucketsInvFull st) (p : String × ResolvedToken) :
    bucketsInvFull (bucketStep fv st p) := by
  obtain ⟨hE, hS, hM, hB⟩ := hst
  dsimp only [bucketStep]
  split
  · exact ⟨hE, hS, hM, hB⟩
  · split
    · exact ⟨hE, hS, hM, hB⟩
    · split
      · next h98 =>
        split
        · refine ⟨?_, hS, hM, hB⟩
          intro m hm
          rcases List.mem_cons.mp hm with rfl | hm'
          · exact ⟨h98, calculateMatchConfidence_wf _ _ _ _ _⟩
          · exact hE m hm'
        · refine ⟨?_, hS, hM, hB⟩
          intro m hm
          rcases List.mem_append.mp hm with hm' | hm'
          · exact hE m hm'
          · rcases List.mem_singleton.mp hm' with rfl
            exact ⟨h98, calculateMatchConfidence_wf _ _ _ _ _⟩
      · next h98 =>
        have h98f : (calculateMatchConfidence fv.value p.2.value fv.type p.2.isReference
            (some p.1)).geF ⟨98, 100⟩ = false := by simpa using h98
        split
        · next hsem =>
          obtain ⟨href, h7⟩ := (Bool.and_eq_true _ _).mp hsem
          refine ⟨hE, ?_, hM, hB⟩
          intro m hm
          rcases List.mem_append.mp hm with hm' | hm'
          · exact hS m hm'
          · rcases List.mem_singleton.mp hm' with rfl
            exact ⟨h98f, href, h7, calculateMatchConfidence_wf _ _ _ _ _⟩
        · next hsem =>
          have hsemf : (p.2.isReference && (calculateMatchConfidence fv.value p.2.value fv.type
              p.2.isReference (some p.1)).geF ⟨7, 10⟩) = false := by simpa using hsem
          split
          · next h9 =>
            refine ⟨hE, hS, ?_, hB⟩
            intro m hm
            rcases List.mem_append.mp hm with hm' | hm'
            · exact hM m hm'
            · rcases List.mem_singleton.mp hm' with rfl
              exact ⟨h98f, hsemf, h9, calculateMatchConfidence_wf _ _ _ _ _⟩
          · next h9 =>
            have h9f : (calculateMatchConfidence fv.value p.2.value fv.type p.2.isReference
                (some p.1)).geF ⟨9, 10⟩ = false := by simpa using h9
            split
            · next h5 =>
              refine ⟨hE, hS, hM, ?_⟩
              intro m hm
              rcases List.mem_append.mp hm with hm' | hm'
              · exact hB m hm'
              · rcases List.mem_singleton.mp hm' with rfl
                exact ⟨h98f, hsemf, h9f, h5, calculateMatchConfidence_wf _ _ _ _ _⟩
            · exact ⟨hE, hS, hM, hB⟩

theorem foldl_bucketStep_inv (fv : FigmaValue) (l : List (String × ResolvedToken))
    {st : MatchBuckets} (hst : bucketsInvFull st) :
    bucketsInvFull (l.foldl (bucketStep fv) st) := by
  induction l generalizing st with
  | nil => exact hst
  | cons p ps ih => exact ih (bucketStep_inv hst p)

/-! Reading the category index off the invariant. -/

theorem categoryIdx_of_exact {m : PotentialMatch} (h : m.confidence.geF ⟨98, 100⟩ = true) :
    matchCategoryIdx m = 0 := by
  unfold matchCategoryIdx
  rw [if_pos h]

theorem categoryIdx_of_semantic {m : PotentialMatch} (h0 : m.confidence.geF ⟨98, 100⟩ = false)
    (h1 : m.tokenData.isReference = true) (h2 : m.confidence.geF ⟨7, 10⟩ = true) :
    matchCategoryIdx m = 1 := by
  unfold matchCategoryIdx
  rw [if_neg (by simp [h0]), if_pos (by simp [h1, h2])]

theorem categoryIdx_of_similar {m : PotentialMatch} (h0 : m.confidence.geF ⟨98, 100⟩ = false)
    (h1 : (m.tokenData.isReference && m.confidence.geF ⟨7, 10⟩) = false)
    (h2 : m.confidence.geF ⟨9, 10⟩ = true) : matchCategoryIdx m = 2 := by
  unfold matchCategoryIdx
  rw [if_neg (by simp [h0]), if_neg (by simp [h1]), if_pos h2]

theorem categoryIdx_of_base {m : PotentialMatch} (h0 : m.confidence.geF ⟨98, 100⟩ = false)
    (h1 : (m.tokenData.isReference && m.confidence.geF ⟨7, 10⟩) = false)
    (h2 : m.confidence.geF ⟨9, 10⟩ = false) : matchCategoryIdx m = 3 := by
  unfold matchCategoryIdx
  rw [if_neg (by simp [h0]), if_neg (by simp [h1]), if_neg (by simp [h2])]

/-- Any candidate in the final ranked list came out of one of the four
buckets, so it satisfies that bucket's guard (and its confidence is a
well-formed number). -/
theorem findAll_mem_inv {fv : FigmaValue} {tokens : List (String × ResolvedToken)}
    {m : PotentialMatch} (h : m ∈ findAllPotentialMatches fv tokens) :
    m.confidence.WF ∧
      (matchCategoryIdx m = 0 ∧ m.confidence.geF ⟨98, 100⟩ = true ∨
       matchCategoryIdx m = 1 ∧ m.tokenData.isReference = true ∧
         m.confidence.geF ⟨7, 10⟩ = true ∨
       matchCategoryIdx m = 2 ∧ m.confidence.geF ⟨9, 10⟩ = true ∨
       matchCategoryIdx m = 3 ∧ m.confidence.geF ⟨5, 10⟩ = true) := by
  have hinv := foldl_bucketStep_inv fv tokens bucketsInvFull_empty
  dsimp only [findAllPotentialMatches] at h
  have h' := List.mem_of_mem_take h
  rcases List.mem_append.mp h' with h'' | hD
  · rcases List.mem_append.mp h'' with h''' | hC
    · rcases List.mem_append.mp h''' with hA | hB
      · have hm := hinv.1 m (stableSortBy_subset (List.mem_of_mem_take hA))
        exact ⟨hm.2, Or.inl ⟨categoryIdx_of_exact hm.1, hm.1⟩⟩
      · have hm := hinv.2.1 m (stableSortBy_subset (List.mem_of_mem_take hB))
        exact ⟨hm.2.2.2, Or.inr (Or.inl
          ⟨categoryIdx_of_semantic hm.1 hm.2.1 hm.2.2.1, hm.2.1, hm.2.2.1⟩)⟩
    · have hm := hinv.2.2.1 m (stableSortBy_subset (List.mem_of_mem_take hC))
      exact ⟨hm.2.2.2, Or.inr (Or.inr (Or.inl
        ⟨categoryIdx_of_similar hm.1 hm.2.1 hm.2.2.1, hm.2.2.1⟩))⟩
  · have hm := hinv.2.2.2 m (stableSortBy_subset (List.mem_of_mem_take hD))
    exact ⟨hm.2.2.2.2, Or.inr (Or.inr (Or.inr
      ⟨categoryIdx_of_base hm.1 hm.2.1 hm.2.2.1, hm.2.2.2.1⟩))⟩

/-! ## Evaluation lemmas for `Math.min`/`Math.max` on rational numbers,
and list lemmas for the conversion step -/

theorem minQ_val {q : Frac} (hq : q.Pos) {x : JsNum} (hxa : x.a.Pos) (hxb : x.b.num = 0) :
    (JsNum.minQ q x).a.val = min q.val x.a.val ∧ (JsNum.minQ q x).b.num = 0 := by
  unfold JsNum.minQ
  by_cases h : x.leF q = true
  · rw [if_pos h]
    rw [JsNum.leF_bzero hxb hxa hq] at h
    exact ⟨(min_eq_right h).symm, hxb⟩
  · rw [if_neg h]
    have h' : q.val ≤ x.a.val :=
      le_of_not_le fun hh => h ((JsNum.leF_bzero hxb hxa hq).mpr hh)
    exact ⟨(min_eq_left h').symm, rfl⟩

theorem maxQ_val {q : Frac} (hq : q.Pos) {x : JsNum} (hxa : x.a.Pos) (hxb : x.b.num = 0) :
    (JsNum.maxQ q x).a.val = max q.val x.a.val ∧ (JsNum.maxQ q x).b.num = 0 := by
  unfold JsNum.maxQ
  by_cases h : x.geF q = true
  · rw [if_pos h]
    rw [JsNum.geF_bzero hxb hxa hq] at h
    exact ⟨(max_eq_right h).symm, hxb⟩
  · rw [if_neg h]
    have h' : x.a.val ≤ q.val :=
      le_of_not_le fun hh => h ((JsNum.geF_bzero hxb hxa hq).mpr hh)
    exact ⟨(max_eq_left h').symm, rfl⟩

theorem filter_enumFrom_ne_zero {α : Type} (es : List α) (n : Nat) (hn : n ≠ 0) :
    ((List.enumFrom n es).filter (fun q => q.1 ≠ 0)).map Prod.snd = es := by
  induction es generalizing n with
  | nil => rfl
  | cons e es ih =>
    rw [List.enumFrom_cons, List.filter_cons_of_pos (by simpa using hn), List.map_cons,
      ih (n + 1) (Nat.succ_ne_zero n)]

theorem filter_enum_tail {α : Type} (e : α) (es : List α) :
    (((e :: es).enum.filter (fun q => q.1 ≠ 0)).map Prod.snd) = es := by
  rw [List.enum_cons, List.filter_cons, if_neg (by simp)]
  exact filter_enumFrom_ne_zero es 1 (by decide)

/-- The batch loop of `matchValuesWithTokens`, characterized: matched values
append enhanced entries, unmatched values append unmatched records. -/
theorem mvt_foldl (tokens : List (String × ResolvedToken)) (fvs : List FigmaValue)
    (st : List EnhancedTokenMatch × List UnmatchedValue) :
    fvs.foldl
      (fun (st : List EnhancedTokenMatch × List UnmatchedValue) fv =>
        let allMatches := findAllPotentialMatches fv tokens
        if 0 < allMatches.length then (st.1 ++ [mkEnhanced fv allMatches], st.2)
        else (st.1, st.2 ++ [⟨fv.value, fv.type, fv.count⟩]))
      st =
    (st.1 ++ (fvs.filter (fun fv => 0 < (findAllPotentialMatches fv tokens).length)).map
        (fun fv => mkEnhanced fv (findAllPotentialMatches fv tokens)),
     st.2 ++ fvs.filterMap (fun fv =>
        if (findAllPotentialMatches fv tokens).length = 0 then
          some ⟨fv.value, fv.type, fv.count⟩ else none)) := by
  induction fvs generalizing st with
  | nil => simp
  | cons fv fvs ih =>
    simp only [List.foldl_cons, List.filter_cons, List.filterMap_cons]
    by_cases h : 0 < (findAllPotentialMatches fv tokens).length
    · have hlen : ¬ ((findAllPotentialMatches fv tokens).length = 0) := by omega
      rw [ih]
      simp [h, hlen, List.append_assoc]
    · have hlen : (findAllPotentialMatches fv tokens).length = 0 := by omega
      rw [ih]
      simp [h, hlen, List.append_assoc]

/-! ## Claim C3: theme-based set selection -/

/-- C3, counterexample: the theme marks the set `Off` explicitly `disabled`,
yet `resolveTokensWithTheme` still resolves its token `Off.x` — the
append-all-remaining-sets step re-adds every non-`$` set. -/
theorem c3_counterexample :
    offDisabledTheme.selectedTokenSets = [("Off", RNode.str "disabled")] ∧
    assocGet (resolveTokensWithTheme offTree offDisabledTheme) "Off.x" =
      some ⟨"4px", false, none, none, some "spacing"⟩ := by decide

/-- C3 (amended): every non-metadata top-level set participates in
resolution for every theme — `getAvailableTokenSets` always contains every
top-level key not starting with `$`, whether the theme marks it enabled,
disabled, or not at all. -/
theorem c3_availableSets (tokens : RFields) (theme : Theme) (s : String)
    (hs : s ∈ tokens.keys) (hmeta : strStartsWith s "$" = false) :
    s ∈ getAvailableTokenSets tokens theme := by
  unfold getAvailableTokenSets
  apply dedupFold_mem
  rw [List.mem_filter]
  exact ⟨hs, by simp [hmeta]⟩

/-- C3, witness: the disabled set `Off` of the counterexample fixture is in
the available list. -/
theorem c3_witness :
    ("Off" ∈ offTree.keys ∧ strStartsWith "Off" "$" = false) ∧
    "Off" ∈ getAvailableTokenSets offTree offDisabledTheme :=
  ⟨⟨by decide, by decide⟩,
   c3_availableSets offTree offDisabledTheme "Off" (by decide) (by decide)⟩

/-! ## Claim C4: the `matchType` classification -/

/-- C4, counterexample: a non-semantic candidate with confidence exactly 0.95
(≥ 0.95, so `exact` per the claimed table) is classified `base` by the code,
whose `exact` threshold is 0.98. -/
theorem c4_counterexample :
    determineMatchType "8px" (baseTok "8px") (JsNum.ofFrac ⟨95, 100⟩) = .base ∧
    (JsNum.ofFrac ⟨95, 100⟩).geF ⟨95, 100⟩ = true := by decide

/-- C4 (amended): `determineMatchType` classifies by the table `exact` iff
confidence ≥ 0.98; otherwise semantic tokens split at 0.9 into
`semantic`/`similar`; otherwise `base` — as captured by
`determineMatchTypeSpec`. -/
theorem c4_matchType (fvv : String) (td : ResolvedToken) (conf : JsNum) :
    determineMatchType fvv td conf = determineMatchTypeSpec td.isReference conf ∧
    (determineMatchType fvv td conf = .exact ↔ conf.geF ⟨98, 100⟩ = true) := by
  constructor
  · rfl
  · unfold determineMatchType
    split
    · next h => exact iff_of_true rfl h
    · next h =>
      constructor
      · intro hh
        split at hh
        · split at hh <;> exact absurd hh (by decide)
        · exact absurd hh (by decide)
      · intro hh
        exact absurd hh h


/-! ## Fuel stability of the resolver

The source terminates through its visited-path sets.  In the fueled
embedding this surfaces as: beyond the per-call bound `callMeasure`, the
fuel argument is irrelevant — proved by exhibiting the strict decrease of
`visitBudget` across nested resolutions. -/

theorem assocGet_isSome_mem_keys {α : Type} {l : List (String × α)} {k : String}
    (h : (assocGet l k).isSome = true) : k ∈ l.map Prod.fst := by
  induction l with
  | nil => simp [assocGet] at h
  | cons p rest ih =>
    obtain ⟨q, w⟩ := p
    simp only [assocGet] at h
    by_cases hk : q = k
    · subst hk
      simp
    · rw [if_neg hk] at h
      exact List.mem_cons_of_mem _ (ih h)

theorem nodup_length_le {l q : List String} (h : l.Nodup) (hs : ∀ x ∈ l, x ∈ q) :
    l.length ≤ q.length := by
  have h1 : l.toFinset.card = l.length := List.toFinset_card_of_nodup h
  have h2 : l.toFinset ⊆ q.toFinset := by
    intro x hx
    simp only [List.mem_toFinset] at hx ⊢
    exact hs x hx
  have h3 := Finset.card_le_card h2
  have h4 := List.toFinset_card_le q
  omega

theorem filter_keys_length_le (allTokens : List (String × TokData)) {v : List String}
    (hv : v.Nodup) :
    (v.filter (fun p => (assocGet allTokens p).isSome)).length ≤ allTokens.length := by
  have h1 : (v.filter (fun p => (assocGet allTokens p).isSome)).Nodup := hv.filter _
  have h2 : ∀ x ∈ v.filter (fun p => (assocGet allTokens p).isSome),
      x ∈ allTokens.map Prod.fst := by
    intro x hx
    exact assocGet_isSome_mem_keys (by simpa using List.of_mem_filter hx)
  have h3 := nodup_length_le h1 h2
  simpa using h3

theorem visitBudget_pos {allTokens : List (String × TokData)} {v : List String}
    (hv : v.Nodup) : 1 ≤ visitBudget allTokens v := by
  have := filter_keys_length_le allTokens hv
  unfold visitBudget
  omega

theorem visitBudget_append (allTokens : List (String × TokData)) {v : List String} {t : String}
    (hv : (v ++ [t]).Nodup) (hk : (assocGet allTokens t).isSome = true) :
    visitBudget allTokens (v ++ [t]) + 1 = visitBudget allTokens v := by
  have hlen := filter_keys_length_le allTokens hv
  unfold visitBudget at hlen ⊢
  rw [List.filter_append] at hlen ⊢
  have hft : List.filter (fun p => (assocGet allTokens p).isSome) [t] = [t] := by
    simp [hk]
  rw [hft] at hlen ⊢
  simp only [List.length_append, List.length_singleton] at hlen ⊢
  omega

theorem callMeasure_pos (allTokens : List (String × TokData)) (call : RCall)
    (hnd : call.visitedOf.Nodup) : 1 ≤ callMeasure allTokens call := by
  cases call with
  | direct tp v ch =>
    have hb : 1 ≤ visitBudget allTokens v := visitBudget_pos hnd
    simp only [callMeasure]
    have h2 : 1 * (allTokens.length + 3) ≤ visitBudget allTokens v * (allTokens.length + 3) :=
      Nat.mul_le_mul hb (Nat.le_refl _)
    omega
  | find rp v ch =>
    simp only [callMeasure]
    omega
  | tryPaths ps v ch =>
    simp only [callMeasure]
    omega

theorem stableInsert_length {α : Type} (lt : α → α → Bool) (x : α) (l : List α) :
    (stableInsert lt x l).length = l.length + 1 := by
  induction l with
  | nil => rfl
  | cons y ys ih =>
    unfold stableInsert
    split
    · simp
    · simp [ih]

theorem stableSortBy_length {α : Type} (lt : α → α → Bool) (l : List α) :
    (stableSortBy lt l).length = l.length := by
  unfold stableSortBy
  suffices H : ∀ (l acc : List α),
      (l.foldl (fun acc x => stableInsert lt x acc) acc).length = acc.length + l.length by
    simpa using H l []
  intro l
  induction l with
  | nil => intro acc; simp
  | cons x xs ih =>
    intro acc
    rw [List.foldl_cons, ih, stableInsert_length]
    simp only [List.length_cons]
    omega

/-! One-step unfoldings of `resolveStep` (definitional equalities, stated so
the fuel of the recursive occurrences is explicit). -/

theorem resolveStep_direct_eq (allTokens : List (String × TokData)) (fuel : Nat)
    (tokenPath : String) (visited chain : List String)
    (cache : List (String × ResolvedToken)) :
    resolveStep allTokens (fuel + 1) (.direct tokenPath visited chain) cache =
    (if visited.contains tokenPath then (none, cache)
    else
      match assocGet cache tokenPath with
      | some r => (some r, cache)
      | none =>
        match assocGet allTokens tokenPath with
        | none => (none, cache)
        | some tokenData =>
          match tokenData.node.rawValOf with
          | none => (none, cache)
          | some rawValue =>
            let tokenTypeStr := RNode.jsToStringOpt tokenData.node.typeValOf
            let visited' := visited ++ [tokenPath]
            let stringValue := rawValue.jsToString
            let references := scanPlaceholders stringValue
            if references.isEmpty then
              let result : ResolvedToken := ⟨stringValue, false, none, none, some tokenTypeStr⟩
              (some result, assocInsert cache tokenPath result)
            else
              let st := references.foldl
                (fun (st : String × List String × List (String × ResolvedToken)) ref =>
                  let ch1 := st.2.1 ++ [ref.2]
                  match resolveStep allTokens fuel (.find ref.2 visited' ch1) st.2.2 with
                  | (some referencedToken, c') =>
                    (strReplaceFirst st.1 ref.1 referencedToken.value,
                     ch1 ++ referencedToken.referenceChain.getD [], c')
                  | (none, c') => (strReplaceFirst st.1 ref.1 ref.1, ch1, c'))
                (stringValue, chain, cache)
              let result : ResolvedToken :=
                ⟨st.1, true, some stringValue, some (dedupPreserve st.2.1), some tokenTypeStr⟩
              (some result, assocInsert st.2.2 tokenPath result)) := rfl

theorem resolveStep_find_eq (allTokens : List (String × TokData)) (fuel : Nat)
    (referencePath : String) (visited chain : List String)
    (cache : List (String × ResolvedToken)) :
    resolveStep allTokens (fuel + 1) (.find referencePath visited chain) cache =
    (if (assocGet allTokens referencePath).isSome then
      resolveStep allTokens fuel (.direct referencePath visited chain) cache
    else
      let possiblePaths := (allTokens.map Prod.fst).filter
        (fun p => strEndsWith p ("." ++ referencePath) || p = referencePath)
      let sorted := stableSortBy (fun a b => refPathCmp referencePath a b < 0) possiblePaths
      resolveStep allTokens fuel (.tryPaths sorted visited chain) cache) := rfl

theorem resolveStep_tryPaths_cons_eq (allTokens : List (String × TokData)) (fuel : Nat)
    (p : String) (ps : List String) (visited chain : List String)
    (cache : List (String × ResolvedToken)) :
    resolveStep allTokens (fuel + 1) (.tryPaths (p :: ps) visited chain) cache =
    (match resolveStep allTokens fuel (.direct p visited chain) cache with
    | (some r, c') => (some r, c')
    | (none, c') => resolveStep allTokens fuel (.tryPaths ps visited chain) c') := rfl

theorem resolveStep_succ_ext (allTokens : List (String × TokData)) :
    ∀ (f : Nat) (call : RCall) (cache : List (String × ResolvedToken)),
      call.visitedOf.Nodup → callMeasure allTokens call ≤ f →
      resolveStep allTokens (f + 1) call cache = resolveStep allTokens f call cache := by
  intro f
  induction f with
  | zero =>
    intro call cache hnd h1
    have := callMeasure_pos allTokens call hnd
    omega
  | succ g ih =>
    intro call cache hnd h1
    cases call with
    | direct tp v ch =>
      have hv : v.Nodup := hnd
      rw [resolveStep_direct_eq, resolveStep_direct_eq]
      by_cases hvis : v.contains tp = true
      · rw [if_pos hvis, if_pos hvis]
      · rw [if_neg hvis, if_neg hvis]
        rcases hc : assocGet cache tp with _ | r
        · dsimp only
          rcases hk : assocGet allTokens tp with _ | td
          · rfl
          · dsimp only
            rcases hraw : td.node.rawValOf with _ | rawValue
            · rfl
            · dsimp only
              by_cases hemp : (scanPlaceholders rawValue.jsToString).isEmpty = true
              · rw [if_pos hemp, if_pos hemp]
              · rw [if_neg hemp, if_neg hemp]
                have hnd' : (v ++ [tp]).Nodup := by
                  simp only [List.nodup_append, List.nodup_cons, List.not_mem_nil,
                    not_false_eq_true, List.nodup_nil, and_true, true_and]
                  refine ⟨hv, ?_⟩
                  intro a ha hb
                  simp only [List.mem_singleton] at hb
                  subst hb
                  exact hvis (by simpa using ha)
                have hBsucc := visitBudget_append allTokens hnd'
                  (by simp [hk])
                have hμ : ∀ (s : String) (c : List String),
                    callMeasure allTokens (.find s (v ++ [tp]) c) ≤ g := by
                  intro s c
                  simp only [callMeasure] at h1 ⊢
                  rw [← hBsucc, add_one_mul] at h1
                  omega
                have hfold : (scanPlaceholders rawValue.jsToString).foldl
                    (fun (st : String × List String × List (String × ResolvedToken)) ref =>
                      match resolveStep allTokens (g + 1)
                          (.find ref.2 (v ++ [tp]) (st.2.1 ++ [ref.2])) st.2.2 with
                      | (some referencedToken, c') =>
                        (strReplaceFirst st.1 ref.1 referencedToken.value,
                         (st.2.1 ++ [ref.2]) ++ referencedToken.referenceChain.getD [], c')
                      | (none, c') =>
                        (strReplaceFirst st.1 ref.1 ref.1, st.2.1 ++ [ref.2], c'))
                    (rawValue.jsToString, ch, cache) =
                    (scanPlaceholders rawValue.jsToString).foldl
                    (fun (st : String × List String × List (String × ResolvedToken)) ref =>
                      match resolveStep allTokens g
                          (.find ref.2 (v ++ [tp]) (st.2.1 ++ [ref.2])) st.2.2 with
                      | (some referencedToken, c') =>
                        (strReplaceFirst st.1 ref.1 referencedToken.value,
                         (st.2.1 ++ [ref.2]) ++ referencedToken.referenceChain.getD [], c')
                      | (none, c') =>
                        (strReplaceFirst st.1 ref.1 ref.1, st.2.1 ++ [ref.2], c'))
                    (rawValue.jsToString, ch, cache) := by
                  apply List.foldl_ext
                  intro st ref hmem
                  have hrec := ih (.find ref.2 (v ++ [tp]) (st.2.1 ++ [ref.2])) st.2.2
                    hnd' (hμ ref.2 (st.2.1 ++ [ref.2]))
                  rw [hrec]
                rw [hfold]
        · rfl
    | find rp v ch =>
      rw [resolveStep_find_eq, resolveStep_find_eq]
      by_cases hk : (assocGet allTokens rp).isSome = true
      · rw [if_pos hk, if_pos hk]
        have hμ : callMeasure allTokens (.direct rp v ch) ≤ g := by
          simp only [callMeasure] at h1 ⊢
          omega
        exact ih (.direct rp v ch) cache hnd hμ
      · rw [if_neg hk, if_neg hk]
        dsimp only
        have hlen : (stableSortBy (fun a b => refPathCmp rp a b < 0)
            ((allTokens.map Prod.fst).filter
              (fun p => strEndsWith p ("." ++ rp) || p = rp))).length ≤
            allTokens.length := by
          rw [stableSortBy_length]
          calc ((allTokens.map Prod.fst).filter
              (fun p => strEndsWith p ("." ++ rp) || p = rp)).length
              ≤ (allTokens.map Prod.fst).length := List.length_filter_le _ _
            _ = allTokens.length := List.length_map _ _
        have hμ : callMeasure allTokens (.tryPaths (stableSortBy
            (fun a b => refPathCmp rp a b < 0)
            ((allTokens.map Prod.fst).filter
              (fun p => strEndsWith p ("." ++ rp) || p = rp))) v ch) ≤ g := by
          simp only [callMeasure] at h1 ⊢
          omega
        exact ih _ cache hnd hμ
    | tryPaths ps v ch =>
      cases ps with
      | nil => rfl
      | cons p pr =>
        rw [resolveStep_tryPaths_cons_eq, resolveStep_tryPaths_cons_eq]
        have hμd : callMeasure allTokens (.direct p v ch) ≤ g := by
          simp only [callMeasure, List.length_cons] at h1 ⊢
          omega
        have hd := ih (.direct p v ch) cache hnd hμd
        rw [hd]
        rcases hres : resolveStep allTokens g (.direct p v ch) cache with ⟨o, c'⟩
        rcases o with _ | r
        · have hμt : callMeasure allTokens (.tryPaths pr v ch) ≤ g := by
            simp only [callMeasure, List.length_cons] at h1 ⊢
            omega
          exact ih (.tryPaths pr v ch) c' hnd hμt
        · rfl

theorem resolveStep_ge_ext (allTokens : List (String × TokData)) (f : Nat) (k : Nat)
    (call : RCall) (cache : List (String × ResolvedToken)) (hnd : call.visitedOf.Nodup)
    (hf : callMeasure allTokens call ≤ f) :
    resolveStep allTokens (f + k) call cache = resolveStep allTokens f call cache := by
  induction k with
  | zero => rfl
  | succ k ihk =>
    have h1 := resolveStep_succ_ext allTokens (f + k) call cache hnd
      (le_trans hf (Nat.le_add_right f k))
    exact h1.trans ihk

/-- Every flattened token table is resolved within the canonical budget:
adding recursion budget beyond `resolverFuel` never changes the result, for
every input — the visited-path sets, not the budget, bound the recursion. -/
theorem resolveAllTokens_ge (allTokens : List (String × TokData)) (k : Nat) :
    resolveAllTokens allTokens (resolverFuel allTokens.length + k) =
      resolveAllTokens allTokens (resolverFuel allTokens.length) := by
  unfold resolveAllTokens
  apply List.foldl_ext
  intro resolved tokenPath hmem
  have hμ : callMeasure allTokens (.direct tokenPath [] []) ≤
      resolverFuel allTokens.length := by
    simp only [callMeasure]
    unfold visitBudget resolverFuel
    simp only [List.filter_nil, List.length_nil, Nat.sub_zero]
    nlinarith [Nat.zero_le allTokens.length]
  have h := resolveStep_ge_ext allTokens (resolverFuel allTokens.length) k
    (.direct tokenPath [] []) resolved (by simp [RCall.visitedOf]) hμ
  rw [h]
/-! ## Claim C5: cycle safety of the resolver -/

/-- C5, counterexample: in the `A → \x7bB\x7d → \x7bA\x7d` cycle, token
`S.A` is present but its resolved value is `\x7bA\x7d` — the value of `B`
with `B`'s own reference left verbatim — not `S.A`'s own placeholder
`\x7bB\x7d` left verbatim, which the claim asserts. -/
theorem c5_counterexample :
    assocGet (resolveTokensWithSemantics cycleTree) "S.A" =
      some ⟨"\x7bA\x7d", true, some "\x7bB\x7d", some ["B", "A"], some "spacing"⟩ ∧
    strContains "\x7bA\x7d" "\x7bB\x7d" = false := by decide

/-- C5 (amended): token resolution terminates on every input table — for
every flattened token list, any recursion budget of at least
`resolverFuel` produces one and the same resolved map (the visited-path
sets, not the budget, bound the recursion) — and on the two-token cycle
the fixed result is: both tokens are present; the token whose resolution
hit the visited set (`B`, resolved inside `A`'s chain) keeps its
placeholder verbatim, and the other receives that value. -/
theorem c5_cycleSafety :
    (∀ (allTokens : List (String × TokData)) (k : Nat),
      resolveAllTokens allTokens (resolverFuel allTokens.length + k) =
        resolveAllTokens allTokens (resolverFuel allTokens.length)) ∧
    (∀ n : Nat, resolveAllTokens cycleToks (n + 48) =
      [("S.B", ⟨"\x7bA\x7d", true, some "\x7bA\x7d", some ["B", "A"], some "spacing"⟩),
       ("S.A", ⟨"\x7bA\x7d", true, some "\x7bB\x7d", some ["B", "A"], some "spacing"⟩)]) ∧
    resolveTokensWithSemantics cycleTree =
      [("S.B", ⟨"\x7bA\x7d", true, some "\x7bA\x7d", some ["B", "A"], some "spacing"⟩),
       ("S.A", ⟨"\x7bA\x7d", true, some "\x7bB\x7d", some ["B", "A"], some "spacing"⟩)] :=
  ⟨resolveAllTokens_ge, fun _ => rfl, rfl⟩

/-! ## Claim C7: colour value-similarity -/

/-- The code's `calculateColorDistance` against the claim-worded
`rgbSimilarity441`: short or unparseable inputs give `0.0`/`NaN` where the
claim-worded form gives no similarity; parseable 7-character pairs give the
same number, clamped below at `0`. -/
theorem colorDistance_cases (c1 c2 : String) :
    (calculateColorDistance c1 c2 = some (JsNum.ofInt 0) ∧ rgbSimilarity441 c1 c2 = none) ∨
    (calculateColorDistance c1 c2 = none ∧ rgbSimilarity441 c1 c2 = none) ∨
    (∃ w, rgbSimilarity441 c1 c2 = some w ∧ w.WF ∧
      calculateColorDistance c1 c2 = some (JsNum.maxQ (Frac.ofInt 0) w)) := by
  unfold calculateColorDistance rgbSimilarity441
  by_cases hlen : strLen c1 = 7 ∧ strLen c2 = 7
  · rw [if_neg (by omega), if_pos hlen]
    rcases h1 : jsParseIntHex ((c1.data.drop 1).take 2) with _ | r1 <;>
      rcases h2 : jsParseIntHex ((c1.data.drop 3).take 2) with _ | g1 <;>
      rcases h3 : jsParseIntHex ((c1.data.drop 5).take 2) with _ | b1 <;>
      rcases h4 : jsParseIntHex ((c2.data.drop 1).take 2) with _ | r2 <;>
      rcases h5 : jsParseIntHex ((c2.data.drop 3).take 2) with _ | g2 <;>
      rcases h6 : jsParseIntHex ((c2.data.drop 5).take 2) with _ | b2 <;>
      first
      | exact Or.inr (Or.inl ⟨rfl, rfl⟩)
      | exact Or.inr (Or.inr ⟨_, rfl, ⟨Int.one_pos, by norm_num [Frac.Pos], Int.one_pos⟩, rfl⟩)
  · rw [if_pos (by omega), if_neg hlen]
    exact Or.inl ⟨rfl, rfl⟩

/-- C7 (amended): for `fill`/`stroke` values that are not textually equal,
the value similarity is `colorValueSimilaritySpec`: `1.0` on identical
normalized forms, else the distance-based similarity `1 − √d²/441` when it
is ≥ 0.9 and parseable, else `0.0`.  (The claim's normalizer `√(255²·3)`
≈ 441.67 differs from the code's 441; see the counterexample.) -/
theorem c7_colorSimilarity (f t pt : String) (hpt : pt = "fill" ∨ pt = "stroke")
    (hne : ¬ f = t) :
    calculateValueSimilarity f t pt = colorValueSimilaritySpec f t := by
  unfold calculateValueSimilarity
  rw [if_neg hne, if_pos hpt]
  dsimp only [calculateColorSimilarity, colorValueSimilaritySpec]
  by_cases heq : normalizeColor f = normalizeColor t
  · rw [if_pos heq, if_pos heq]
  · rw [if_neg heq, if_neg heq]
    rcases colorDistance_cases (normalizeColor f) (normalizeColor t) with
      ⟨hcd, hsp⟩ | ⟨hcd, hsp⟩ | ⟨w, hsp, hwf, hcd⟩
    · rw [hcd, hsp]
      have h0 : (JsNum.ofInt 0).geF ⟨9, 10⟩ = false := by decide
      simp [h0]
    · rw [hcd, hsp]
    · rw [hcd, hsp]
      by_cases hg0 : w.geF (Frac.ofInt 0) = true
      · have hw : JsNum.maxQ (Frac.ofInt 0) w = w := by
          unfold JsNum.maxQ
          rw [if_pos hg0]
        rw [hw]
      · have hmax : JsNum.maxQ (Frac.ofInt 0) w = JsNum.ofFrac (Frac.ofInt 0) := by
          unfold JsNum.maxQ
          rw [if_neg hg0]
        have h9 : w.geF ⟨9, 10⟩ = false := by
          by_contra hcon
          exact hg0 (JsNum.geF_mono hwf (p := Frac.ofInt 0) (q := ⟨9, 10⟩) (by decide)
            (by decide) (by norm_num [Frac.val, Frac.ofInt]) (by simpa using hcon))
        have h9' : (JsNum.ofFrac (Frac.ofInt 0)).geF ⟨9, 10⟩ = false := by decide
        rw [hmax]
        simp [h9, h9']

/-- C7, counterexample to the claimed normalizer: `#000000` vs `#2b0904`
has squared RGB distance 1946, so the claim's similarity
`1 − √(1946/(255²·3))` (second conjunct, as an exact radical) is ≥ 0.9 and
would be reported — but the code normalizes by 441 and scores `0.0`. -/
theorem c7_counterexample :
    calculateValueSimilarity "#000000" "#2b0904" "fill" = JsNum.ofInt 0 ∧
    (⟨Frac.ofInt 1, ⟨-1, 1⟩, ⟨1946, 195075⟩⟩ : JsNum).geF ⟨9, 10⟩ = true ∧
    ¬ ("#000000" : String) = "#2b0904" := by decide

/-- C7, witness: `#000000` vs `#000027` (squared distance 1521, similarity
1 − 39/441 ≈ 0.912). -/
theorem c7_witness :
    (("fill" = "fill" ∨ ("fill" : String) = "stroke") ∧
      ¬ ("#000000" : String) = "#000027") ∧
    calculateValueSimilarity "#000000" "#000027" "fill" =
      colorValueSimilaritySpec "#000000" "#000027" :=
  ⟨⟨Or.inl rfl, by decide⟩,
   c7_colorSimilarity "#000000" "#000027" "fill" (Or.inl rfl) (by decide)⟩

/-! ## Claim C8: no-theme set selection -/

/-- C8, counterexample: a tree whose only top-level keys are `$data` and
`$themes` has no non-metadata sets at all, yet `resolveTokensWithSemantics`
resolves `$data.a` — it adopts the first `$themes` entry as default theme,
and that theme explicitly enables the metadata key `$data`. -/
theorem c8_counterexample :
    nonMetaSets metaEnabledTree = [] ∧
    assocGet (resolveTokensWithSemantics metaEnabledTree) "$data.a" =
      some ⟨"1", false, none, none, some "spacing"⟩ := by decide

/-- C8 (amended): only when the tree carries no usable `$themes` entry does
the no-theme entry point flatten exactly the non-`$` top-level sets. -/
theorem c8_noThemeSets (tokens : RFields) (h : extractThemes tokens = []) :
    defaultAvailableSets tokens = nonMetaSets tokens ∧
    resolveTokensWithSemantics tokens =
      resolveAllTokens (collectAllFromSets tokens (nonMetaSets tokens))
        (resolverFuel (collectAllFromSets tokens (nonMetaSets tokens)).length) := by
  have hd : defaultAvailableSets tokens = nonMetaSets tokens := by
    unfold defaultAvailableSets
    rw [h]
    rfl
  refine ⟨hd, ?_⟩
  unfold resolveTokensWithSemantics
  rw [hd]

/-- C8, witness: the theme-less one-set tree. -/
theorem c8_witness :
    extractThemes offTree = [] ∧
    (defaultAvailableSets offTree = nonMetaSets offTree ∧
     resolveTokensWithSemantics offTree =
       resolveAllTokens (collectAllFromSets offTree (nonMetaSets offTree))
         (resolverFuel (collectAllFromSets offTree (nonMetaSets offTree)).length)) :=
  ⟨by decide, c8_noThemeSets offTree (by decide)⟩

/-! ## Claim C10: alpha-channel colours -/

/-- C10, counterexample: `#AABBCCDD` vs `#aabbccdd` — raw strings differ,
both normalize to the same 9-character alpha-carrying string, and the value
similarity is `1.0`, not the `0.0` the claim asserts for any non-7-character
normalized pair. -/
theorem c10_counterexample :
    ¬ ("#AABBCCDD" : String) = "#aabbccdd" ∧
    normalizeColor "#AABBCCDD" = "#aabbccdd" ∧
    strLen (normalizeColor "#AABBCCDD") = 9 ∧
    calculateValueSimilarity "#AABBCCDD" "#aabbccdd" "fill" = JsNum.ofInt 1 := by decide

/-- C10 (amended): for `fill`/`stroke` pairs that are not textually equal
and whose normalized forms also differ, if either normalized form is not a
7-character string the similarity is exactly `0.0` — distance-based
matching applies only to `#rrggbb` forms, and alpha-carrying colours match
only via (normalized) equality. -/
theorem c10_alphaColors (f t pt : String) (hpt : pt = "fill" ∨ pt = "stroke")
    (hne : ¬ f = t) (hnorm : ¬ normalizeColor f = normalizeColor t)
    (hlen : ¬ strLen (normalizeColor f) = 7 ∨ ¬ strLen (normalizeColor t) = 7) :
    calculateValueSimilarity f t pt = JsNum.ofInt 0 := by
  unfold calculateValueSimilarity
  rw [if_neg hne, if_pos hpt]
  dsimp only [calculateColorSimilarity]
  rw [if_neg hnorm]
  have hcd : calculateColorDistance (normalizeColor f) (normalizeColor t) =
      some (JsNum.ofInt 0) := by
    unfold calculateColorDistance
    rw [if_pos hlen]
  rw [hcd]
  have h0 : (JsNum.ofInt 0).geF ⟨9, 10⟩ = false := by decide
  simp [h0]

/-- C10, witness: `#ff000080` (normalizes to itself, 9 characters) vs
`#ff0000`. -/
theorem c10_witness :
    ((("fill" : String) = "fill" ∨ ("fill" : String) = "stroke") ∧
      ¬ ("#ff000080" : String) = "#ff0000" ∧
      ¬ normalizeColor "#ff000080" = normalizeColor "#ff0000" ∧
      (¬ strLen (normalizeColor "#ff000080") = 7 ∨
        ¬ strLen (normalizeColor "#ff0000") = 7)) ∧
    calculateValueSimilarity "#ff000080" "#ff0000" "fill" = JsNum.ofInt 0 :=
  ⟨⟨Or.inl rfl, by decide, by decide, Or.inl (by decide)⟩,
   c10_alphaColors _ _ _ (Or.inl rfl) (by decide) (by decide) (Or.inl (by decide))⟩

/-! ## Claim C1: ordering of the ranked candidate list -/

/-- C1, counterexample: for the observed value `8px`, the numerically-named
semantic token `8` (alignment 0.1) is ranked strictly before the well-named
base token `spacing.md` (alignment 0.9) although the alignment gap 0.8
exceeds the claimed tolerance 0.1 — the bucket concatenation, not the
claimed alignment-primary comparator, decides the order. -/
theorem c1_counterexample :
    (findAllPotentialMatches fvSpacing8 toksNumericVsNamed).map PotentialMatch.tokenName =
      ["8", "spacing.md"] ∧
    calculatePropertyTokenNameAlignment (some "8") "spacing" = ⟨1, 10⟩ ∧
    calculatePropertyTokenNameAlignment (some "spacing.md") "spacing" = ⟨9, 10⟩ ∧
    Frac.blt ⟨1, 10⟩ ((⟨9, 10⟩ : Frac).sub ⟨1, 10⟩) = true := by decide

/-- C1 (amended): the ranked list produced by `findAllPotentialMatches` is
primarily ordered by match category — exact (confidence ≥ 0.98), then
semantic (semantic token, ≥ 0.7), then similar (≥ 0.9), then base — with
the comparator applied only inside each category: along the output the
category index is nondecreasing. -/
theorem c1_rankedByCategory (fv : FigmaValue) (tokens : List (String × ResolvedToken)) :
    (findAllPotentialMatches fv tokens).Pairwise
      (fun m m' => matchCategoryIdx m ≤ matchCategoryIdx m') := by
  obtain ⟨hE, hS, hM, hB⟩ := foldl_bucketStep_inv fv tokens bucketsInvFull_empty
  dsimp only [findAllPotentialMatches]
  refine List.Pairwise.sublist (List.take_sublist _ _) ?_
  have hA : ∀ m ∈ (stableSortBy (fun a b => decide (compareMatches a b < 0))
      ((tokens.foldl (bucketStep fv) {}).exactMatches)).take 6, matchCategoryIdx m = 0 :=
    fun m hm => categoryIdx_of_exact (hE m (stableSortBy_subset (List.mem_of_mem_take hm))).1
  have hB1 : ∀ m ∈ (stableSortBy (fun a b => decide (compareMatches a b < 0))
      ((tokens.foldl (bucketStep fv) {}).semanticMatches)).take 4, matchCategoryIdx m = 1 := by
    intro m hm
    obtain ⟨h0, h1, h2, _⟩ := hS m (stableSortBy_subset (List.mem_of_mem_take hm))
    exact categoryIdx_of_semantic h0 h1 h2
  have hC : ∀ m ∈ (stableSortBy (fun a b => decide (compareMatches a b < 0))
      ((tokens.foldl (bucketStep fv) {}).similarMatches)).take 3, matchCategoryIdx m = 2 := by
    intro m hm
    obtain ⟨h0, h1, h2, _⟩ := hM m (stableSortBy_subset (List.mem_of_mem_take hm))
    exact categoryIdx_of_similar h0 h1 h2
  have hD : ∀ m ∈ (stableSortBy (fun a b => decide (compareMatches a b < 0))
      ((tokens.foldl (bucketStep fv) {}).baseMatches)).take 2, matchCategoryIdx m = 3 := by
    intro m hm
    obtain ⟨h0, h1, h2, _, _⟩ := hB m (stableSortBy_subset (List.mem_of_mem_take hm))
    exact categoryIdx_of_base h0 h1 h2
  refine (List.pairwise_append).mpr ⟨(List.pairwise_append).mpr
    ⟨(List.pairwise_append).mpr ⟨pairwise_le_of_const hA, pairwise_le_of_const hB1, ?_⟩,
     pairwise_le_of_const hC, ?_⟩, pairwise_le_of_const hD, ?_⟩
  · intro a ha b hb
    rw [hA a ha, hB1 b hb]
    omega
  · intro a ha b hb
    rcases List.mem_append.mp ha with h | h
    · rw [hA a h, hC b hb]
      omega
    · rw [hB1 a h, hC b hb]
      omega
  · intro a ha b hb
    rcases List.mem_append.mp ha with h | h
    · rcases List.mem_append.mp h with h' | h'
      · rw [hA a h', hD b hb]
        omega
      · rw [hB1 a h', hD b hb]
        omega
    · rw [hC a h, hD b hb]
      omega

/-! ## Claim C9: the confidence floor of emitted matches -/

/-- C9, counterexample: a semantic token emitted with confidence exactly 0.5
(below the claimed semantic floor 0.7): the bucketization drops a semantic
token from the semantic bucket below 0.7, but the base bucket still accepts
it at ≥ 0.5. -/
theorem c9_counterexample :
    (⟨"spacing", semTok "9px", ⟨⟨500, 1000⟩, ⟨0, 1⟩, ⟨0, 1⟩⟩, .similar⟩ : PotentialMatch) ∈
      findAllPotentialMatches fvSpacing10 toksSemNine ∧
    (semTok "9px").isReference = true ∧
    (⟨⟨500, 1000⟩, ⟨0, 1⟩, ⟨0, 1⟩⟩ : JsNum).geF ⟨7, 10⟩ = false := by decide

/-- C9 (amended): every candidate the engine emits — in the ranked list and
in the per-value recommendations — has confidence ≥ 0.5; a candidate
survives only through one of the four bucket guards (≥ 0.98; semantic ∧
≥ 0.7; ≥ 0.9; ≥ 0.5), each of which implies the 0.5 floor.  (Semantic
tokens with confidence in [0.5, 0.7) still surface through the base
bucket, so 0.7 is not a semantic-token floor.) -/
theorem c9_confidenceFloor (fv : FigmaValue) (tokens : List (String × ResolvedToken)) :
    (∀ m ∈ findAllPotentialMatches fv tokens, m.confidence.geF ⟨5, 10⟩ = true) ∧
    ∀ v ty tm, tm ∈ getRecommendationsForValue v ty tokens →
      tm.confidence.geF ⟨5, 10⟩ = true := by
  have key : ∀ (fv' : FigmaValue) (m : PotentialMatch),
      m ∈ findAllPotentialMatches fv' tokens → m.confidence.geF ⟨5, 10⟩ = true := by
    intro fv' m hm
    obtain ⟨hwf, hcases⟩ := findAll_mem_inv hm
    rcases hcases with ⟨_, h⟩ | ⟨_, _, h⟩ | ⟨_, h⟩ | ⟨_, h⟩
    · exact JsNum.geF_mono hwf (by decide) (by decide) (by norm_num [Frac.val]) h
    · exact JsNum.geF_mono hwf (by decide) (by decide) (by norm_num [Frac.val]) h
    · exact JsNum.geF_mono hwf (by decide) (by decide) (by norm_num [Frac.val]) h
    · exact h
  refine ⟨key fv, ?_⟩
  intro v ty tm htm
  dsimp only [getRecommendationsForValue] at htm
  obtain ⟨m, hm, rfl⟩ := List.mem_map.mp htm
  exact key _ m hm

/-- C9, witness: the 0.5-confidence semantic match of the fixture is in the
output and satisfies the floor. -/
theorem c9_witness :
    ((⟨"spacing", semTok "9px", ⟨⟨500, 1000⟩, ⟨0, 1⟩, ⟨0, 1⟩⟩, .similar⟩ : PotentialMatch) ∈
      findAllPotentialMatches fvSpacing10 toksSemNine) ∧
    (⟨"spacing", semTok "9px", ⟨⟨500, 1000⟩, ⟨0, 1⟩, ⟨0, 1⟩⟩,
      .similar⟩ : PotentialMatch).confidence.geF ⟨5, 10⟩ = true :=
  ⟨by decide, (c9_confidenceFloor fvSpacing10 toksSemNine).1 _ (by decide)⟩

/-! ## Claim C6: matched/unmatched partition of the batch -/

/-- C6: each observed value yields either token matches (some candidate
survived) or exactly one unmatched record carrying its value, type and
count — never both, never neither; and the first emitted `TokenMatch` of a
surviving value is built from the top-ranked candidate, with up to two of
the other candidates rendered as suggestion strings. -/
theorem c6_matchPartition (figmaValues : List FigmaValue)
    (tokens : List (String × ResolvedToken)) :
    ((matchValuesWithTokens figmaValues tokens).unmatchedValues =
      figmaValues.filterMap (fun fv =>
        if (findAllPotentialMatches fv tokens).length = 0 then
          some ⟨fv.value, fv.type, fv.count⟩ else none) ∧
     (matchValuesWithTokens figmaValues tokens).tokenMatches =
      convertToTokenMatches
        ((figmaValues.filter
            (fun fv => 0 < (findAllPotentialMatches fv tokens).length)).map
          (fun fv => mkEnhanced fv (findAllPotentialMatches fv tokens)))) ∧
    ∀ (fv : FigmaValue) (m : PotentialMatch) (ms : List PotentialMatch),
      (perValueTokenMatches (mkEnhanced fv (m :: ms))).head? =
        some ⟨fv.value, extractCleanTokenName m.tokenName, m.tokenData.value, m.confidence,
          ((ms.map toEnhEntry).take 2).map suggestionText, m.tokenData.isReference,
          m.tokenData.referenceChain, m.tokenData.originalReference, m.tokenData.tokenType,
          fv.nodeIds, some m.tokenName⟩ := by
  refine ⟨⟨?_, ?_⟩, ?_⟩
  · dsimp only [matchValuesWithTokens]
    rw [mvt_foldl]
    simp
  · dsimp only [matchValuesWithTokens]
    rw [mvt_foldl]
    simp
  · intro fv m ms
    dsimp only [perValueTokenMatches, mkEnhanced, List.map_cons]
    rw [List.enum_cons]
    rw [List.map_cons, List.head?_cons]
    dsimp only
    rw [show ((0, toEnhEntry m) :: List.enumFrom 1 (ms.map toEnhEntry)) =
      (toEnhEntry m :: ms.map toEnhEntry).enum from (List.enum_cons).symm]
    rw [filter_enum_tail]
    rfl

/-! ## Claim C2: the confidence combination table -/

theorem minQ_branch {q : Frac} (hq : q.Pos) {x : JsNum} (hxa : x.a.Pos) (hxb : x.b.num = 0)
    {r : ℚ} (hr : min q.val x.a.val = r) :
    (JsNum.minQ q x).a.val = r ∧ (JsNum.minQ q x).b.num = 0 :=
  ⟨(minQ_val hq hxa hxb).1.trans hr, (minQ_val hq hxa hxb).2⟩

theorem maxQ_branch {q : Frac} (hq : q.Pos) {x : JsNum} (hxa : x.a.Pos) (hxb : x.b.num = 0)
    {r : ℚ} (hr : max q.val x.a.val = r) :
    (JsNum.maxQ q x).a.val = r ∧ (JsNum.maxQ q x).b.num = 0 :=
  ⟨(maxQ_val hq hxa hxb).1.trans hr, (maxQ_val hq hxa hxb).2⟩

set_option maxHeartbeats 2000000 in
/-- C2: on every pair of nonnegative rational sub-scores and every pair of
flags, the confidence combiner returns exactly the four-tier table value
(with the two low-score fallbacks), as captured by
`combineConfidenceSpecTable`; the result carries no radical part. -/
theorem c2_combineTable (vs na : ℚ) (sem ex : Bool) (hv : 0 ≤ vs) (hn : 0 ≤ na) :
    (combineConfidenceScores (JsNum.ofRat vs) (Frac.ofRat na) sem ex).a.val =
      combineConfidenceSpecTable vs na sem ex ∧
    (combineConfidenceScores (JsNum.ofRat vs) (Frac.ofRat na) sem ex).b.num = 0 := by
  have hble : ((⟨8, 10⟩ : Frac).ble (Frac.ofRat na) = true) ↔ (0.8 : ℚ) ≤ na := by
    rw [Frac.ble_iff (by decide) (Frac.ofRat_pos na), Frac.val_ofRat]
    norm_num [Frac.val]
  have hblt : ((Frac.ofRat na).blt ⟨8, 10⟩ = true) ↔ na < (0.8 : ℚ) := by
    rw [Frac.blt_iff (Frac.ofRat_pos na) (by decide), Frac.val_ofRat]
    norm_num [Frac.val]
  have hge9 : ((JsNum.ofRat vs).geF ⟨9, 10⟩ = true) ↔ (0.9 : ℚ) ≤ vs := by
    rw [JsNum.geF_bzero rfl (Frac.ofRat_pos vs) (by decide)]
    rw [show (JsNum.ofRat vs).a = Frac.ofRat vs from rfl, Frac.val_ofRat]
    norm_num [Frac.val]
  have hge8 : ((JsNum.ofRat vs).geF ⟨8, 10⟩ = true) ↔ (0.8 : ℚ) ≤ vs := by
    rw [JsNum.geF_bzero rfl (Frac.ofRat_pos vs) (by decide)]
    rw [show (JsNum.ofRat vs).a = Frac.ofRat vs from rfl, Frac.val_ofRat]
    norm_num [Frac.val]
  dsimp only [combineConfidenceScores, combineConfidenceSpecTable]
  simp only [hble, hblt, hge9, hge8]
  dsimp only [JsNum.addQ, JsNum.mulQ, JsNum.subFrom, JsNum.ofRat, JsNum.ofFrac]
  split_ifs
  · refine minQ_branch (by decide) (by decide) rfl ?_
    norm_num [Frac.val, Frac.add, Frac.ofInt]
  · refine minQ_branch (by decide) (by decide) rfl ?_
    norm_num [Frac.val, Frac.add, Frac.ofInt]
  · refine maxQ_branch (by decide) ?_ rfl ?_
    · exact Frac.sub_pos' (by decide)
        (Frac.mul_pos' (Frac.sub_pos' (Frac.ofInt_pos 1) (Frac.ofRat_pos vs)) (by decide))
    · rw [Frac.val_sub (by decide)
          (Frac.mul_pos' (Frac.sub_pos' (Frac.ofInt_pos 1) (Frac.ofRat_pos vs)) (by decide)),
        Frac.val_mul, Frac.val_sub (Frac.ofInt_pos 1) (Frac.ofRat_pos vs),
        Frac.val_ofRat vs, Frac.val_ofInt]
      norm_num [Frac.val, Frac.add]
      try congr 1
      try ring
  · refine maxQ_branch (by decide) ?_ rfl ?_
    · exact Frac.sub_pos' (by decide)
        (Frac.mul_pos' (Frac.sub_pos' (Frac.ofInt_pos 1) (Frac.ofRat_pos vs)) (by decide))
    · rw [Frac.val_sub (by decide)
          (Frac.mul_pos' (Frac.sub_pos' (Frac.ofInt_pos 1) (Frac.ofRat_pos vs)) (by decide)),
        Frac.val_mul, Frac.val_sub (Frac.ofInt_pos 1) (Frac.ofRat_pos vs),
        Frac.val_ofRat vs, Frac.val_ofInt]
      norm_num [Frac.val, Frac.add]
      try congr 1
      try ring
  · refine minQ_branch (by decide) ?_ rfl ?_
    · exact Frac.add_pos' (by decide) (Frac.mul_pos' (Frac.ofRat_pos na) (by decide))
    · rw [Frac.val_add (by decide) (Frac.mul_pos' (Frac.ofRat_pos na) (by decide)),
        Frac.val_mul, Frac.val_ofRat na]
      norm_num [Frac.val, Frac.add]
      try congr 1
      try ring
  · refine minQ_branch (by decide) ?_ rfl ?_
    · exact Frac.add_pos' (by decide) (Frac.mul_pos' (Frac.ofRat_pos na) (by decide))
    · rw [Frac.val_add (by decide) (Frac.mul_pos' (Frac.ofRat_pos na) (by decide)),
        Frac.val_mul, Frac.val_ofRat na]
      norm_num [Frac.val, Frac.add]
      try congr 1
      try ring
  · refine minQ_branch (by decide) ?_ rfl ?_
    · exact Frac.add_pos'
        (Frac.mul_pos' (Frac.add_pos' (Frac.ofRat_pos vs) (by decide)) (by decide))
        (Frac.add_pos' (by decide) (Frac.mul_pos' (Frac.ofRat_pos na) (by decide)))
    · rw [Frac.val_add
          (Frac.mul_pos' (Frac.add_pos' (Frac.ofRat_pos vs) (by decide)) (by decide))
          (Frac.add_pos' (by decide) (Frac.mul_pos' (Frac.ofRat_pos na) (by decide))),
        Frac.val_mul, Frac.val_add (Frac.ofRat_pos vs) (by decide),
        Frac.val_add (by decide) (Frac.mul_pos' (Frac.ofRat_pos na) (by decide)),
        Frac.val_mul, Frac.val_ofRat vs, Frac.val_ofRat na]
      norm_num [Frac.val, Frac.add]
      try congr 1
      try ring
  · refine minQ_branch (by decide) ?_ rfl ?_
    · exact Frac.add_pos'
        (Frac.mul_pos' (Frac.add_pos' (Frac.ofRat_pos vs) (by decide)) (by decide))
        (Frac.add_pos' (by decide) (Frac.mul_pos' (Frac.ofRat_pos na) (by decide)))
    · rw [Frac.val_add
          (Frac.mul_pos' (Frac.add_pos' (Frac.ofRat_pos vs) (by decide)) (by decide))
          (Frac.add_pos' (by decide) (Frac.mul_pos' (Frac.ofRat_pos na) (by decide))),
        Frac.val_mul, Frac.val_add (Frac.ofRat_pos vs) (by decide),
        Frac.val_add (by decide) (Frac.mul_pos' (Frac.ofRat_pos na) (by decide)),
        Frac.val_mul, Frac.val_ofRat vs, Frac.val_ofRat na]
      norm_num [Frac.val, Frac.add]
      try congr 1
      try ring
  · refine minQ_branch (by decide) ?_ rfl ?_
    · exact Frac.add_pos' (by decide) (Frac.mul_pos' (Frac.ofRat_pos na) (by decide))
    · rw [Frac.val_add (by decide) (Frac.mul_pos' (Frac.ofRat_pos na) (by decide)),
        Frac.val_mul, Frac.val_ofRat na]
      norm_num [Frac.val, Frac.add]
      try congr 1
      try ring
  · refine minQ_branch (by decide) ?_ rfl ?_
    · exact Frac.add_pos' (by decide) (Frac.mul_pos' (Frac.ofRat_pos na) (by decide))
    · rw [Frac.val_add (by decide) (Frac.mul_pos' (Frac.ofRat_pos na) (by decide)),
        Frac.val_mul, Frac.val_ofRat na]
      norm_num [Frac.val, Frac.add]
      try congr 1
      try ring
  · refine maxQ_branch (by decide) ?_ rfl ?_
    · exact Frac.add_pos' (Frac.mul_pos' (Frac.ofRat_pos vs) (by decide))
        (Frac.mul_pos' (Frac.ofRat_pos na) (by decide))
    · rw [Frac.val_add (Frac.mul_pos' (Frac.ofRat_pos vs) (by decide))
          (Frac.mul_pos' (Frac.ofRat_pos na) (by decide)),
        Frac.val_mul, Frac.val_mul, Frac.val_ofRat vs, Frac.val_ofRat na, Frac.val_ofInt]
      norm_num [Frac.val]
      nlinarith [hv, hn]

/-- C2, witness: sub-scores 0.85 and 1, semantic, not exact. -/
theorem c2_witness :
    ((0 : ℚ) ≤ 0.85 ∧ (0 : ℚ) ≤ 1) ∧
    ((combineConfidenceScores (JsNum.ofRat 0.85) (Frac.ofRat 1) true false).a.val =
      combineConfidenceSpecTable 0.85 1 true false ∧
     (combineConfidenceScores (JsNum.ofRat 0.85) (Frac.ofRat 1) true false).b.num = 0) :=
  ⟨⟨by norm_num, by norm_num⟩,
   c2_combineTable 0.85 1 true false (by norm_num) (by norm_num)⟩
